import Mathlib

/-!
Verification development for the C-Bus network identifier module
(`src/lib/cbus-netid.js`).  The JavaScript code is shallowly embedded:
JS values that flow into the constructor are modelled by `CBus.JSVal`,
the `CBusNetId` object by a structure of `Option Nat` fields, thrown
errors by `Except CBus.CErr`, and the anchored regular expression used
by `CBusNetId.parse` by an explicit backtracking matcher that enumerates
candidate decompositions in the engine's preference order (greedy
quantifiers, leftmost alternatives) and keeps the first complete match.
-/

deriving instance DecidableEq for Except

namespace CBus

/-! ### Character classes of the regular expressions in the source -/

def isDigitCh (c : Char) : Bool := decide (48 ≤ c.toNat ∧ c.toNat ≤ 57)

def isUpperCh (c : Char) : Bool := decide (65 ≤ c.toNat ∧ c.toNat ≤ 90)

/-- the class `[A-Z0-9_]` of the project-name pattern -/
def isProjCh (c : Char) : Bool := isUpperCh c || isDigitCh c || c = '_'

/-- the class `[0-9_]` of the all-numeric project-name rejection pattern -/
def isNumericCh (c : Char) : Bool := isDigitCh c || c = '_'

/-- lowercase hexadecimal digits, the alphabet of `Number.prototype.toString(16)` -/
def isHexCh (c : Char) : Bool :=
  decide ((48 ≤ c.toNat ∧ c.toNat ≤ 57) ∨ (97 ≤ c.toNat ∧ c.toNat ≤ 102))

/-! ### JavaScript values reaching the constructor -/

/-- A JavaScript value as passed to `CBusNetId(project, network, param3, param4, param5)`:
`undefined`, a number, or a string. -/
inductive JSVal : Type where
  | undef : JSVal
  | num : Int → JSVal
  | str : String → JSVal
deriving DecidableEq

/-- JS truthiness (`!!v`) for the values of `JSVal`. -/
def truthy : JSVal → Bool
  | .undef => false
  | .num n => n != 0
  | .str s => s != ""

/-- value of a list of decimal digit characters -/
def digitsVal (l : List Char) : Nat := l.foldl (fun a c => a * 10 + (c.toNat - 48)) 0

/-- Modelled from the spec: `cbus-utils.integerise` (the file
`src/lib/cbus-utils.js` is not among the sources).  Per §4.1: "Numeric
fields are coerced from string-or-number input; a value that cannot be
interpreted as an integer is treated as absent (not an error)". -/
def integerise : JSVal → Option Int
  | .undef => none
  | .num n => some n
  | .str s =>
    match s.data with
    | [] => none
    | '-' :: rest =>
      if rest ≠ [] ∧ rest.all isDigitCh then some (-(digitsVal rest : Int)) else none
    | l => if l.all isDigitCh then some ((digitsVal l : Int)) else none

/-! ### Errors thrown by construction and parsing -/

/-- The distinct `Error`s thrown by `cbus-netid.js`, one constructor per
`throw` site family. -/
inductive CErr : Type where
  | missingProject : CErr
  | invalidProjectName : String → CErr
  | outOfRange : String → Int → CErr
  | missingUnitAddress : CErr
  | invalidCombination : String → CErr
  | malformedNetId : CErr
deriving DecidableEq

/-! ### The CBusNetId value -/

/-- The `CBusNetId` object: fields that the constructor may set.  A JS
field holding `undefined` (or never assigned) is `none`. -/
structure CBusNetId : Type where
  project : String
  network : Option Nat := none
  application : Option Nat := none
  group : Option Nat := none
  unitAddress : Option Nat := none
  channel : Option Nat := none
deriving DecidableEq

/-- `CBusNetId.validatedProjectName` -/
def validatedProjectName (name : String) : Except CErr String :=
  if name = "P" ∨ name = "CBUS" ∨ name = "VM" ∨ name = "CMDINT" ∨ name = "CGATE" ∨ name = "TAG" then
    .error (.invalidProjectName "illegal project name (cannot be a reserved word)")
  else if (match name.data with
           | 'C' :: 'M' :: 'D' :: rest => rest ≠ [] && rest.all isDigitCh
           | _ => false) then
    .error (.invalidProjectName "illegal project name (cannot be reserved word CMDn)")
  else if 1 ≤ name.length ∧ name.length ≤ 8 ∧ name.data.all isNumericCh then
    .error (.invalidProjectName "illegal project name (cannot be all numeric)")
  else if ¬(1 ≤ name.length ∧ name.length ≤ 8 ∧ name.data.all isProjCh) then
    .error (.invalidProjectName "illegal project name (format)")
  else
    .ok name

/-- `CBusNetId.validatedNumber`: integerise, then range-check `[0,255]`. -/
def validatedNumber (v : JSVal) (nm : String) : Except CErr (Option Nat) :=
  match integerise v with
  | none => .ok none
  | some x => if x < 0 ∨ 255 < x then .error (.outOfRange nm x) else .ok (some x.toNat)

/-- `CBusNetId.validatedChannelNumber`: integerise, then reject a truthy
value outside `[1,7]`. -/
def validatedChannelNumber (v : JSVal) : Except CErr (Option Nat) :=
  match integerise v with
  | none => .ok none
  | some x => if x ≠ 0 ∧ (x ≤ 0 ∨ 8 ≤ x) then .error (.outOfRange "channel" x) else .ok (some x.toNat)

/-- The branch of the constructor selected by `param3 === 'p'`
(unit address) versus application/group. -/
def buildBranch (proj : String) (net channel : Option Nat) (p3 p4 : JSVal) :
    Except CErr CBusNetId :=
  if p3 = JSVal.str "p" then
    match validatedNumber p4 "unitAddress" with
    | .error e => .error e
    | .ok none => .error .missingUnitAddress
    | .ok (some u) =>
      .ok { project := proj, network := net, unitAddress := some u, channel := channel }
  else
    match validatedNumber p3 "application" with
    | .error e => .error e
    | .ok app =>
      match validatedNumber p4 "group" with
      | .error e => .error e
      | .ok grp =>
        if grp.isSome && app.isNone then
          .error (.invalidCombination "group netIds must have an application")
        else
          .ok { project := proj, network := net, application := app, group := grp,
                channel := channel }

/-- The trailing cross-field checks of the constructor (performed when
`network` is undefined). -/
def finalCheck (x : CBusNetId) : Except CErr CBusNetId :=
  if x.network.isNone then
    if x.application.isSome then
      .error (.invalidCombination "netIds with application must have a network")
    else if x.unitAddress.isSome then
      .error (.invalidCombination "unit netIds must have a network")
    else .ok x
  else .ok x

/-- The constructor `CBusNetId(project, network, param3, param4, param5)`.
`project` is `none` when the JS argument is `undefined` (otherwise it is
a string, as in every call site of the module). -/
def construct (project? : Option String) (network p3 p4 p5 : JSVal) :
    Except CErr CBusNetId :=
  match project? with
  | none => .error .missingProject
  | some pname =>
    match validatedProjectName pname with
    | .error e => .error e
    | .ok proj =>
      match (if truthy p5 then validatedChannelNumber p5 else .ok none) with
      | .error e => .error e
      | .ok channel =>
        match validatedNumber network "network" with
        | .error e => .error e
        | .ok net =>
          match buildBranch proj net channel p3 p4 with
          | .error e => .error e
          | .ok x => finalCheck x

/-! ### Classification predicates -/

def CBusNetId.isProjectId (x : CBusNetId) : Bool := x.network.isNone

def CBusNetId.isNetworkId (x : CBusNetId) : Bool :=
  x.network.isSome && x.application.isNone && x.unitAddress.isNone

def CBusNetId.isApplicationId (x : CBusNetId) : Bool :=
  x.application.isSome && x.group.isNone

/-- JS truthiness of `this.channel` (a present channel `0` is falsy). -/
def CBusNetId.truthyChannel (x : CBusNetId) : Bool :=
  match x.channel with
  | none => false
  | some c => c != 0

def CBusNetId.isGroupId (x : CBusNetId) : Bool :=
  !x.isApplicationId && !x.truthyChannel && x.group.isSome

def CBusNetId.isUnitId (x : CBusNetId) : Bool := x.unitAddress.isSome

/-! ### Hash, string form, equality, network comparison, ordering -/

/-- `CBusNetId.prototype.getHash`: the numeric branches are the JS
bit-ors (fields holding `undefined` contribute `0`, as `undefined | x`
does in JS), rendered in lowercase hexadecimal by `toString(16)`. -/
def CBusNetId.getHash (x : CBusNetId) : String :=
  if x.isProjectId then x.project
  else if x.isUnitId then
    String.mk (Nat.toDigits 16 ((2 <<< 24) ||| ((x.network.getD 0) <<< 16) ||| (x.unitAddress.getD 0)))
  else
    String.mk (Nat.toDigits 16 ((1 <<< 24) ||| ((x.network.getD 0) <<< 16) ||| ((x.application.getD 0) <<< 8) ||| (x.group.getD 0)))

/-- JS template interpolation of a possibly-undefined numeric field. -/
def jsShow : Option Nat → String
  | none => "undefined"
  | some n => Nat.repr n

/-- `CBusNetId.prototype.toString` -/
def CBusNetId.toString (x : CBusNetId) : String :=
  if x.isProjectId then "//" ++ x.project
  else if x.isNetworkId then "//" ++ x.project ++ "/" ++ jsShow x.network
  else if x.isApplicationId then
    "//" ++ x.project ++ "/" ++ jsShow x.network ++ "/" ++ jsShow x.application
  else if x.isGroupId then
    "//" ++ x.project ++ "/" ++ jsShow x.network ++ "/" ++ jsShow x.application ++ "/" ++ jsShow x.group
  else if x.truthyChannel then
    "//" ++ x.project ++ "/" ++ jsShow x.network ++ "/" ++ jsShow x.application ++ "/" ++ jsShow x.group ++ "/" ++ jsShow x.channel
  else
    "//" ++ x.project ++ "/" ++ jsShow x.network ++ "/p/" ++ jsShow x.unitAddress

/-- `CBusNetId.prototype.isEquals` -/
def CBusNetId.isEquals (a b : CBusNetId) : Bool :=
  a.project == b.project && a.getHash == b.getHash

/-- `CBusNetId.prototype.isSameNetwork` (`===` on number-or-undefined
fields is `Option Nat` equality). -/
def CBusNetId.isSameNetwork (a b : CBusNetId) : Bool := a.network == b.network

/-- Lexicographic comparison of char lists by code point: the JS `<`
operator on strings (code-unit order; all strings here are ASCII). -/
def listLt : List Char → List Char → Bool
  | [], [] => false
  | [], _ :: _ => true
  | _ :: _, [] => false
  | a :: as, b :: bs =>
    if a.toNat < b.toNat then true
    else if b.toNat < a.toNat then false
    else listLt as bs

/-- JS `a < b` on strings. -/
def strLt (a b : String) : Bool := listLt a.data b.data

/-- `CBusNetId.compare` -/
def CBusNetId.compare (a b : CBusNetId) : Int :=
  if a.project ≠ b.project then (if strLt a.project b.project then -1 else 1)
  else if a.isUnitId ≠ b.isUnitId then (if a.isUnitId then 1 else -1)
  else if strLt a.getHash b.getHash then -1 else 1

/-! ### The parse regular expression

`^\/\/([A-Z0-9_]{1,8})(?:\/(\d{1,3})(?:\/(p|\d{1,3})(?:\/(\d{1,3}))?)?)?\/?(\d{1,3})?$`

Backtracking is modelled by enumerating, for every sub-pattern, all the
splits it can make, in the engine's preference order (longest first for
greedy quantifiers, present before absent for `?`, left alternative of
`|` first).  The overall match is the first enumeration entry that
consumes the whole input. -/

/-- All splits `(pre, rest)` of `s` with `pre` drawn from class `p` and
`|pre| ≤ hi`, longest first (the greedy exploration order). -/
def classPrefixes (p : Char → Bool) : Nat → List Char → List (List Char × List Char)
  | 0, s => [([], s)]
  | _ + 1, [] => [([], [])]
  | hi + 1, c :: rest =>
    if p c then
      ((classPrefixes p hi rest).map fun pr => (c :: pr.1, pr.2)) ++ [([], c :: rest)]
    else [([], c :: rest)]

/-- `p{lo,hi}` as a candidate list. -/
def takeClass (p : Char → Bool) (lo hi : Nat) (s : List Char) :
    List (List Char × List Char) :=
  (classPrefixes p hi s).filter fun pr => lo ≤ pr.1.length

/-- `\d{1,3}` -/
def digitSeg (s : List Char) : List (List Char × List Char) := takeClass isDigitCh 1 3 s

/-- `([A-Z0-9_]{1,8})` -/
def projSeg (s : List Char) : List (List Char × List Char) := takeClass isProjCh 1 8 s

/-- `(?:\/(\d{1,3}))?` -/
def optGroup4 (s : List Char) : List (Option (List Char) × List Char) :=
  (match s with
   | '/' :: r => (digitSeg r).map fun pr => (some pr.1, pr.2)
   | _ => []) ++ [(none, s)]

/-- `(p|\d{1,3})` -/
def altP (s : List Char) : List (List Char × List Char) :=
  (match s with
   | 'p' :: r => [(['p'], r)]
   | _ => []) ++ digitSeg s

/-- `(?:\/(p|\d{1,3})(?:\/(\d{1,3}))?)?` -/
def optPart3 (s : List Char) :
    List (Option (List Char) × Option (List Char) × List Char) :=
  (match s with
   | '/' :: r =>
     (altP r).flatMap fun a => (optGroup4 a.2).map fun g => (some a.1, g.1, g.2)
   | _ => []) ++ [(none, none, s)]

/-- `(?:\/(\d{1,3})(?:\/(p|\d{1,3})(?:\/(\d{1,3}))?)?)?` -/
def optPart2 (s : List Char) :
    List (Option (List Char) × Option (List Char) × Option (List Char) × List Char) :=
  (match s with
   | '/' :: r =>
     (digitSeg r).flatMap fun n => (optPart3 n.2).map fun t => (some n.1, t.1, t.2.1, t.2.2)
   | _ => []) ++ [(none, none, none, s)]

/-- `(\d{1,3})?` -/
def optDigits (s : List Char) : List (Option (List Char) × List Char) :=
  ((digitSeg s).map fun pr => (some pr.1, pr.2)) ++ [(none, s)]

/-- `\/?(\d{1,3})?` -/
def tailCands (s : List Char) : List (Option (List Char) × List Char) :=
  (match s with
   | '/' :: r => optDigits r
   | _ => []) ++ optDigits s

/-- The five capture groups of a successful match. -/
structure RawCaptures : Type where
  project : String
  network : Option String := none
  param3 : Option String := none
  param4 : Option String := none
  param5 : Option String := none
deriving DecidableEq

/-- All complete matches of the netid pattern, in preference order. -/
def matchCandidates (s : List Char) : List RawCaptures :=
  match s with
  | '/' :: '/' :: r =>
    (projSeg r).flatMap fun pr =>
      (optPart2 pr.2).flatMap fun q =>
        (tailCands q.2.2.2).flatMap fun t =>
          if t.2 = [] then
            [⟨String.mk pr.1, (q.1).map String.mk, (q.2.1).map String.mk,
              (q.2.2.1).map String.mk, (t.1).map String.mk⟩]
          else []
  | _ => []

/-- `netIdString.match(NETID_REGEX)`: the match the backtracking engine
returns, if any. -/
def netidMatch (s : String) : Option RawCaptures := (matchCandidates s.data).head?

/-- An absent capture group is `undefined` in JS. -/
def jsOf : Option String → JSVal
  | none => .undef
  | some s => .str s

/-- `CBusNetId.parse` -/
def CBusNetId.parse (s : String) : Except CErr CBusNetId :=
  match netidMatch s with
  | none => .error .malformedNetId
  | some c =>
    construct (some c.project) (jsOf c.network) (jsOf c.param3) (jsOf c.param4) (jsOf c.param5)

/-! ### Structural invariant established by the constructor -/

/-- a stored numeric field is in `[0,255]` -/
def numOk (o : Option Nat) : Prop := o.getD 0 ≤ 255

/-- a stored channel is `0` (falsy, from a truthy argument integerising
to zero) or in `[1,7]` -/
def chanOk (o : Option Nat) : Prop := o.getD 0 = 0 ∨ (1 ≤ o.getD 0 ∧ o.getD 0 ≤ 7)

/-- Everything the constructor guarantees about a value it returns:
a validated project name, in-range numeric fields, branch exclusivity,
and the hierarchy rules it actually enforces (note: nothing ties
`channel` to `group`). -/
def WF (x : CBusNetId) : Prop :=
  validatedProjectName x.project = .ok x.project ∧
  numOk x.network ∧ numOk x.application ∧ numOk x.group ∧ numOk x.unitAddress ∧
  chanOk x.channel ∧
  (x.unitAddress.isSome → x.application = none ∧ x.group = none) ∧
  (x.group.isSome → x.application.isSome) ∧
  (x.application.isSome → x.network.isSome) ∧
  (x.unitAddress.isSome → x.network.isSome)

instance (x : CBusNetId) : Decidable (WF x) := by
  unfold WF numOk chanOk
  infer_instance

/-! ### Error categories, for the first-violated-rule contract -/

/-- The spec's construction-failure categories, plus parse failure. -/
inductive ErrCat : Type where
  | missingProject : ErrCat
  | invalidProjectName : ErrCat
  | outOfRange : ErrCat
  | missingUnitAddress : ErrCat
  | invalidCombination : ErrCat
  | malformed : ErrCat
deriving DecidableEq

def catOf : CErr → ErrCat
  | .missingProject => .missingProject
  | .invalidProjectName _ => .invalidProjectName
  | .outOfRange _ _ => .outOfRange
  | .missingUnitAddress => .missingUnitAddress
  | .invalidCombination _ => .invalidCombination
  | .malformedNetId => .malformed

/-- the category of a construction outcome (`none` on success) -/
def resultCat : Except CErr CBusNetId → Option ErrCat
  | .error e => some (catOf e)
  | .ok _ => none

/-- the project name fails validation -/
def projNameBad (s : String) : Bool :=
  match validatedProjectName s with
  | .ok _ => false
  | .error _ => true

/-- a numeric argument integerises to a value outside `[0,255]` -/
def intOutOfRange255 (v : JSVal) : Bool :=
  match integerise v with
  | none => false
  | some x => decide (x < 0 ∨ 255 < x)

/-- the channel argument is truthy and integerises to a truthy value
outside `[1,7]` -/
def chanOutOfRange (v : JSVal) : Bool :=
  truthy v && (match integerise v with
    | none => false
    | some x => decide (x ≠ 0 ∧ (x ≤ 0 ∨ 8 ≤ x)))

/-- Modelled on §4.1: some range-checked numeric field of the input is
out of range (the fields checked depend on the selected branch). -/
def specOutOfRange (network p3 p4 p5 : JSVal) : Bool :=
  chanOutOfRange p5 || intOutOfRange255 network ||
  (if p3 = JSVal.str "p" then intOutOfRange255 p4
   else intOutOfRange255 p3 || intOutOfRange255 p4)

/-- the unit branch is selected but no unit address resolves -/
def specMissingUnit (p3 p4 : JSVal) : Bool :=
  p3 == JSVal.str "p" && (integerise p4).isNone

/-- a cross-field hierarchy rule is violated -/
def specBadCombo (network p3 p4 : JSVal) : Bool :=
  if p3 = JSVal.str "p" then (integerise network).isNone
  else ((integerise p4).isSome && (integerise p3).isNone) ||
       ((integerise p3).isSome && (integerise network).isNone)

/-- The category of the first violated rule, checked in the order the
spec states: missing project, then invalid project name, then
out-of-range numeric fields, then branch-specific missing-field checks,
then cross-field hierarchy checks. -/
def specFirstErr : Option String → JSVal → JSVal → JSVal → JSVal → Option ErrCat
  | none, _, _, _, _ => some .missingProject
  | some pr, network, p3, p4, p5 =>
    if projNameBad pr then some .invalidProjectName
    else if specOutOfRange network p3 p4 p5 then some .outOfRange
    else if specMissingUnit p3 p4 then some .missingUnitAddress
    else if specBadCombo network p3 p4 then some .invalidCombination
    else none

/-! ### Declarative grammars for the parse pattern -/

/-- rendering of an optional captured segment preceded by its slash -/
def segStr : Option (List Char) → List Char
  | none => []
  | some d => '/' :: d

/-- side condition of a `\d{1,3}` capture -/
def digitSegOk : Option (List Char) → Prop
  | none => True
  | some d => 1 ≤ d.length ∧ d.length ≤ 3 ∧ d.all isDigitCh = true

/-- side condition of the `(p|\d{1,3})` capture -/
def appSegOk : Option (List Char) → Prop
  | none => True
  | some d => d = ['p'] ∨ (1 ≤ d.length ∧ d.length ≤ 3 ∧ d.all isDigitCh = true)

/-- The language of the pattern compiled in `CBusNetId.parse`, written
declaratively as existence of a decomposition.  The trailing slash and
the trailing channel digits are independently optional (`\/?(\d{1,3})?`). -/
def NetIdGrammar (s : List Char) : Prop :=
  ∃ (pr : List Char) (net app grp : Option (List Char)) (sl : Bool) (ch : Option (List Char)),
    1 ≤ pr.length ∧ pr.length ≤ 8 ∧ pr.all isProjCh = true ∧
    digitSegOk net ∧ appSegOk app ∧ digitSegOk grp ∧ digitSegOk ch ∧
    (app.isSome → net.isSome) ∧ (grp.isSome → app.isSome) ∧
    s = '/' :: '/' :: pr ++ segStr net ++ segStr app ++ segStr grp ++
        (if sl then ['/'] else []) ++ ch.getD []

/-- The grammar as the spec claims it: the channel comes with its own
slash, as one optional unit `("/" channel)?`. -/
def ClaimGrammar (s : List Char) : Prop :=
  ∃ (pr : List Char) (net app grp ch : Option (List Char)),
    1 ≤ pr.length ∧ pr.length ≤ 8 ∧ pr.all isProjCh = true ∧
    digitSegOk net ∧ appSegOk app ∧ digitSegOk grp ∧ digitSegOk ch ∧
    (app.isSome → net.isSome) ∧ (grp.isSome → app.isSome) ∧
    s = '/' :: '/' :: pr ++ segStr net ++ segStr app ++ segStr grp ++ segStr ch

/-- `("/" channel)?` as a candidate list (used to decide `ClaimGrammar`). -/
def claimTail (s : List Char) : List (Option (List Char) × List Char) :=
  (match s with
   | '/' :: r => (digitSeg r).map fun pr => (some pr.1, pr.2)
   | _ => []) ++ [(none, s)]

/-- complete matches of the claimed grammar, in preference order -/
def claimCandidates (s : List Char) : List RawCaptures :=
  match s with
  | '/' :: '/' :: r =>
    (projSeg r).flatMap fun pr =>
      (optPart2 pr.2).flatMap fun q =>
        (claimTail q.2.2.2).flatMap fun t =>
          if t.2 = [] then
            [⟨String.mk pr.1, (q.1).map String.mk, (q.2.1).map String.mk,
              (q.2.2.1).map String.mk, (t.1).map String.mk⟩]
          else []
  | _ => []

/-! ### Specification of `Nat.toDigits 16` -/

/-- the digit list of `n.toString(16)`, by division -/
def hexSpec (n : Nat) : List Char :=
  if _h : n < 16 then [Nat.digitChar n]
  else hexSpec (n / 16) ++ [Nat.digitChar (n % 16)]
termination_by n
decreasing_by
  exact Nat.div_lt_self (by omega) (by omega)

/-! ### Lemmas: what the validators guarantee -/

theorem validatedProjectName_ok {s r : String} (h : validatedProjectName s = .ok r) :
    r = s := by
  unfold validatedProjectName at h
  repeat' split at h
  all_goals simp_all

theorem validatedNumber_ok_numOk {v : JSVal} {nm : String} {r : Option Nat}
    (h : validatedNumber v nm = .ok r) : numOk r := by
  unfold validatedNumber at h
  cases hI : integerise v with
  | none =>
    simp only [hI, Except.ok.injEq] at h
    subst h
    simp [numOk]
  | some x =>
    simp only [hI] at h
    split at h
    · simp at h
    · rename_i hx
      simp only [Except.ok.injEq] at h
      subst h
      simp only [numOk, Option.getD_some]
      omega

theorem validatedChannelNumber_ok_chanOk {v : JSVal} {r : Option Nat}
    (h : validatedChannelNumber v = .ok r) : chanOk r := by
  unfold validatedChannelNumber at h
  cases hI : integerise v with
  | none =>
    simp only [hI, Except.ok.injEq] at h
    subst h
    simp [chanOk]
  | some x =>
    simp only [hI] at h
    split at h
    · simp at h
    · rename_i hx
      simp only [Except.ok.injEq] at h
      subst h
      simp only [chanOk, Option.getD_some]
      omega

theorem channel_step_ok {p5 : JSVal} {r : Option Nat}
    (h : (if truthy p5 then validatedChannelNumber p5 else .ok none) = .ok r) : chanOk r := by
  split at h
  · exact validatedChannelNumber_ok_chanOk h
  · simp only [Except.ok.injEq] at h
    subst h
    simp [chanOk]

theorem buildBranch_ok {proj : String} {net channel : Option Nat} {p3 p4 : JSVal}
    {x : CBusNetId} (h : buildBranch proj net channel p3 p4 = .ok x) :
    x.project = proj ∧ x.network = net ∧ x.channel = channel ∧
    numOk x.application ∧ numOk x.group ∧ numOk x.unitAddress ∧
    (x.unitAddress.isSome → x.application = none ∧ x.group = none) ∧
    (x.group.isSome → x.application.isSome) := by
  unfold buildBranch at h
  split at h
  · cases h4 : validatedNumber p4 "unitAddress" with
    | error e => simp only [h4] at h; exact Except.noConfusion h
    | ok r =>
      have hr := validatedNumber_ok_numOk h4
      cases r with
      | none => simp only [h4] at h; exact Except.noConfusion h
      | some u =>
        simp only [h4, Except.ok.injEq] at h
        subst h
        simp_all [numOk]
  · cases h3 : validatedNumber p3 "application" with
    | error e => simp only [h3] at h; exact Except.noConfusion h
    | ok app =>
      have happ := validatedNumber_ok_numOk h3
      cases h4 : validatedNumber p4 "group" with
      | error e => simp only [h3, h4] at h; exact Except.noConfusion h
      | ok grp =>
        have hgrp := validatedNumber_ok_numOk h4
        simp only [h3, h4] at h
        split at h
        · simp at h
        · rename_i hcomb
          simp only [Except.ok.injEq] at h
          subst h
          refine ⟨rfl, rfl, rfl, happ, hgrp, by simp [numOk], by simp, ?_⟩
          intro hg
          cases app with
          | none => simp_all
          | some a => simp

theorem finalCheck_ok {x y : CBusNetId} (h : finalCheck x = .ok y) :
    y = x ∧ (x.application.isSome → x.network.isSome) ∧
    (x.unitAddress.isSome → x.network.isSome) := by
  unfold finalCheck at h
  split at h
  · rename_i hnone
    split at h
    · simp at h
    · split at h
      · simp at h
      · rename_i happ huni
        simp only [Except.ok.injEq] at h
        subst h
        exact ⟨rfl, fun hs => absurd hs happ, fun hs => absurd hs huni⟩
  · rename_i hnet
    simp only [Except.ok.injEq] at h
    subst h
    have hs : x.network.isSome := by
      cases hx : x.network
      · simp [hx, Option.isNone] at hnet
      · simp
    exact ⟨rfl, fun _ => hs, fun _ => hs⟩

/-- Everything `construct` returns satisfies the structural invariant. -/
theorem construct_ok_WF {p? : Option String} {n p3 p4 p5 : JSVal} {x : CBusNetId}
    (h : construct p? n p3 p4 p5 = .ok x) : WF x := by
  cases p? with
  | none => simp [construct] at h
  | some pname =>
    simp only [construct] at h
    cases hpn : validatedProjectName pname with
    | error e => simp only [hpn] at h; exact Except.noConfusion h
    | ok proj =>
      simp only [hpn] at h
      have hpp := validatedProjectName_ok hpn
      subst hpp
      cases hch : (if truthy p5 then validatedChannelNumber p5 else Except.ok none) with
      | error e => simp only [hch] at h; exact Except.noConfusion h
      | ok channel =>
        simp only [hch] at h
        have hchok := channel_step_ok hch
        cases hnet : validatedNumber n "network" with
        | error e => simp only [hnet] at h; exact Except.noConfusion h
        | ok net =>
          simp only [hnet] at h
          have hnetok := validatedNumber_ok_numOk hnet
          cases hbb : buildBranch proj net channel p3 p4 with
          | error e => simp only [hbb] at h; exact Except.noConfusion h
          | ok y =>
            simp only [hbb] at h
            obtain ⟨hproj, hynet, hych, happ, hgrp, hua, hexcl, hga⟩ := buildBranch_ok hbb
            obtain ⟨hyx, han, hun⟩ := finalCheck_ok h
            subst hyx
            refine ⟨?_, ?_, happ, hgrp, hua, ?_, hexcl, hga, han, hun⟩
            · rw [hproj]; exact hpn
            · rw [hynet]; exact hnetok
            · rw [hych]; exact hchok

/-! ### Claim C5: definition of equality -/

/-- C5: `equals(a,b)` is true iff the project strings are equal and the
hash strings are equal (string comparison); in particular the bare
Network-kind `//SHAC/254` and the Group-kind `//SHAC/254/0/0`, whose
hashes collide, are equal. -/
theorem C5_equals_iff_project_and_hash :
    (∀ a b : CBusNetId, a.isEquals b = true ↔ (a.project = b.project ∧ a.getHash = b.getHash)) ∧
    CBusNetId.isEquals ⟨"SHAC", some 254, none, none, none, none⟩
      ⟨"SHAC", some 254, some 0, some 0, none, none⟩ = true := by
  constructor
  · intro a b
    simp [CBusNetId.isEquals]
  · decide

/-! ### Claim C10: isSameNetwork -/

/-- C10: `isSameNetwork(a,b)` is total and is strict equality of the two
(possibly undefined) network fields; two Project-kind identifiers are on
the "same network" even when their projects differ. -/
theorem C10_isSameNetwork_iff :
    (∀ a b : CBusNetId, a.isSameNetwork b = true ↔ a.network = b.network) ∧
    CBusNetId.isSameNetwork ⟨"ABC", none, none, none, none, none⟩
      ⟨"XYZ", none, none, none, none, none⟩ = true := by
  constructor
  · intro a b
    simp [CBusNetId.isSameNetwork]
  · decide

/-! ### Counterexamples -/

/-- C1 counterexample: `compare` never returns `0`.  On the pair
`(a, a)` — where `equals` holds — it returns `1`, so `compare` is neither
consistent with `equals` at `0` nor antisymmetric. -/
theorem C1_cex_compare_self_is_one :
    CBusNetId.compare ⟨"HOME", some 254, none, none, none, none⟩
        ⟨"HOME", some 254, none, none, none, none⟩ = 1 ∧
    CBusNetId.isEquals ⟨"HOME", some 254, none, none, none, none⟩
        ⟨"HOME", some 254, none, none, none, none⟩ = true := by decide

/-- C2 counterexample: a validly constructed Unit-kind NetId carrying a
channel stringifies through the channel template, interpolating its
undefined `application`/`group` fields, and the result does not parse. -/
theorem C2_cex_unit_with_channel :
    construct (some "SHAC") (.num 254) (.str "p") (.num 22) (.num 5) =
      .ok ⟨"SHAC", some 254, none, none, some 22, some 5⟩ ∧
    CBusNetId.toString ⟨"SHAC", some 254, none, none, some 22, some 5⟩ =
      "//SHAC/254/undefined/undefined/5" ∧
    CBusNetId.parse "//SHAC/254/undefined/undefined/5" = .error .malformedNetId := by decide

/-- C3 counterexample: the constructor accepts a channel without a group
(nothing ties `channel` to `group`): application 56 with channel 5 and no
group constructs successfully. -/
theorem C3_cex_channel_without_group :
    construct (some "SHAC") (.num 254) (.num 56) .undef (.num 5) =
      .ok ⟨"SHAC", some 254, some 56, none, none, some 5⟩ ∧
    (⟨"SHAC", some 254, some 56, none, none, some 5⟩ : CBusNetId).channel.isSome = true ∧
    (⟨"SHAC", some 254, some 56, none, none, some 5⟩ : CBusNetId).group = none := by decide

/-- C8 counterexample: in the third tier the hash strings of a NetId and
itself are equal, so lexicographic string order would yield "equal"
(`0`), but `compare` returns `1`. -/
theorem C8_cex_hash_tie_gives_one :
    CBusNetId.getHash ⟨"OFFICE", some 200, some 56, some 4, none, none⟩ =
      CBusNetId.getHash ⟨"OFFICE", some 200, some 56, some 4, none, none⟩ ∧
    CBusNetId.compare ⟨"OFFICE", some 200, some 56, some 4, none, none⟩
      ⟨"OFFICE", some 200, some 56, some 4, none, none⟩ = 1 := by decide

/-- C9 counterexample: parsing/constructing with the string channel "0"
stores a *present* channel `0`, which is falsy — so this Group-kind NetId
has a channel present while `isGroupId` still returns `true`. -/
theorem C9_cex_channel_zero_group :
    construct (some "SHAC") (.num 254) (.num 56) (.num 191) (.str "0") =
      .ok ⟨"SHAC", some 254, some 56, some 191, none, some 0⟩ ∧
    (⟨"SHAC", some 254, some 56, some 191, none, some 0⟩ : CBusNetId).channel.isSome = true ∧
    CBusNetId.isGroupId ⟨"SHAC", some 254, some 56, some 191, none, some 0⟩ = true := by decide

/-! ### Claim C7: errors are raised in the specified order -/

theorem validatedProjectName_error_cat {s : String} {e : CErr}
    (h : validatedProjectName s = .error e) : catOf e = .invalidProjectName := by
  unfold validatedProjectName at h
  repeat' split at h
  all_goals
    first
      | exact Except.noConfusion h
      | (simp only [Except.error.injEq] at h; subst h; rfl)

theorem validatedNumber_error_facts {v : JSVal} {nm : String} {e : CErr}
    (h : validatedNumber v nm = .error e) :
    catOf e = .outOfRange ∧ intOutOfRange255 v = true := by
  unfold validatedNumber at h
  cases hI : integerise v with
  | none => simp only [hI] at h; exact Except.noConfusion h
  | some x =>
    simp only [hI] at h
    split at h
    · rename_i hx
      simp only [Except.error.injEq] at h
      subst h
      exact ⟨rfl, by simp [intOutOfRange255, hI, hx]⟩
    · exact Except.noConfusion h

theorem validatedNumber_ok_facts {v : JSVal} {nm : String} {r : Option Nat}
    (h : validatedNumber v nm = .ok r) :
    intOutOfRange255 v = false ∧ (integerise v).isNone = r.isNone ∧
    (integerise v).isSome = r.isSome := by
  unfold validatedNumber at h
  cases hI : integerise v with
  | none =>
    simp only [hI, Except.ok.injEq] at h
    subst h
    simp [intOutOfRange255, hI]
  | some x =>
    simp only [hI] at h
    split at h
    · exact Except.noConfusion h
    · rename_i hx
      simp only [Except.ok.injEq] at h
      subst h
      simp [intOutOfRange255, hI, hx]

theorem validatedChannelNumber_error_facts {v : JSVal} {e : CErr}
    (h : validatedChannelNumber v = .error e) :
    catOf e = .outOfRange ∧ (truthy v = true → chanOutOfRange v = true) := by
  unfold validatedChannelNumber at h
  cases hI : integerise v with
  | none => simp only [hI] at h; exact Except.noConfusion h
  | some x =>
    simp only [hI] at h
    split at h
    · rename_i hx
      simp only [Except.error.injEq] at h
      subst h
      exact ⟨rfl, fun ht => by simp [chanOutOfRange, hI, ht, hx]⟩
    · exact Except.noConfusion h

theorem validatedChannelNumber_ok_chanFalse {v : JSVal} {r : Option Nat}
    (h : validatedChannelNumber v = .ok r) : chanOutOfRange v = false := by
  unfold validatedChannelNumber at h
  cases hI : integerise v with
  | none => simp [chanOutOfRange, hI]
  | some x =>
    simp only [hI] at h
    split at h
    · exact Except.noConfusion h
    · rename_i hx
      simp [chanOutOfRange, hI, hx]

/-- The network/branch/final stage of the constructor raises the first
violated rule among: out-of-range fields, missing unit address,
invalid combination. -/
theorem C7_tail (proj : String) (channel : Option Nat) (n p3 p4 : JSVal) :
    resultCat (match validatedNumber n "network" with
      | .error e => .error e
      | .ok net =>
        match buildBranch proj net channel p3 p4 with
        | .error e => .error e
        | .ok x => finalCheck x) =
    (if intOutOfRange255 n ||
        (if p3 = JSVal.str "p" then intOutOfRange255 p4
         else intOutOfRange255 p3 || intOutOfRange255 p4) then some .outOfRange
     else if specMissingUnit p3 p4 then some .missingUnitAddress
     else if specBadCombo n p3 p4 then some .invalidCombination
     else none) := by
  cases hnet : validatedNumber n "network" with
  | error e =>
    obtain ⟨hcat, hoor⟩ := validatedNumber_error_facts hnet
    simp [resultCat, hcat, hoor]
  | ok net =>
    obtain ⟨hoorn, hnin, hnis⟩ := validatedNumber_ok_facts hnet
    by_cases hp3 : p3 = JSVal.str "p"
    · subst hp3
      simp only [buildBranch, if_pos rfl]
      cases hu : validatedNumber p4 "unitAddress" with
      | error e =>
        obtain ⟨hcat, hoor⟩ := validatedNumber_error_facts hu
        simp [resultCat, hcat, hoorn, hoor]
      | ok r =>
        obtain ⟨hooru, huin, huis⟩ := validatedNumber_ok_facts hu
        cases r with
        | none =>
          have hmu : specMissingUnit (JSVal.str "p") p4 = true := by
            simp [specMissingUnit, huin]
          simp [resultCat, catOf, hoorn, hooru, hmu]
        | some u =>
          have hmu : specMissingUnit (JSVal.str "p") p4 = false := by
            simp [specMissingUnit, huin]
          cases net with
          | none =>
            have hbc : specBadCombo n (JSVal.str "p") p4 = true := by
              simp [specBadCombo, hnin]
            simp [resultCat, catOf, finalCheck, hoorn, hooru, hmu, hbc]
          | some nv =>
            have hbc : specBadCombo n (JSVal.str "p") p4 = false := by
              simp [specBadCombo, hnin]
            simp [resultCat, catOf, finalCheck, hoorn, hooru, hmu, hbc]
    · simp only [buildBranch, if_neg hp3]
      have hmu : specMissingUnit p3 p4 = false := by
        simp [specMissingUnit]
        intro hc
        exact absurd hc hp3
      cases ha : validatedNumber p3 "application" with
      | error e =>
        obtain ⟨hcat, hoor⟩ := validatedNumber_error_facts ha
        simp [resultCat, hcat, hoorn, hoor, hp3]
      | ok app =>
        obtain ⟨hoora, hain, hais⟩ := validatedNumber_ok_facts ha
        cases hg : validatedNumber p4 "group" with
        | error e =>
          obtain ⟨hcat, hoor⟩ := validatedNumber_error_facts hg
          simp [resultCat, hcat, hoorn, hoora, hoor, hp3]
        | ok grp =>
          obtain ⟨hoorg, hgin, hgis⟩ := validatedNumber_ok_facts hg
          by_cases hcomb : (grp.isSome && app.isNone) = true
          · simp only [Bool.and_eq_true] at hcomb
            have h3n : integerise p3 = none :=
              Option.isNone_iff_eq_none.mp (by rw [hain, hcomb.2])
            have h4s : (integerise p4).isSome = true := by rw [hgis]; exact hcomb.1
            have hbc : specBadCombo n p3 p4 = true := by
              simp [specBadCombo, if_neg hp3, h3n, h4s]
            have hcomb2 : (grp.isSome && app.isNone) = true := by
              simp [hcomb.1, hcomb.2]
            simp [resultCat, catOf, hoorn, hoora, hoorg, hp3, hmu, hbc, hcomb2]
          · simp only [if_neg hcomb]
            simp only [Bool.and_eq_true, not_and] at hcomb
            cases net with
            | none =>
              cases happ : app with
              | some a =>
                have h3s : (integerise p3).isSome = true := by rw [hais, happ]; rfl
                have hnn : integerise n = none :=
                  Option.isNone_iff_eq_none.mp (by rw [hnin]; rfl)
                have hbc : specBadCombo n p3 p4 = true := by
                  simp [specBadCombo, if_neg hp3, h3s, hnn]
                simp [resultCat, catOf, finalCheck, hoorn, hoora, hoorg, hp3, hmu, hbc, happ]
              | none =>
                have hgnone : grp = none := by
                  cases hgx : grp with
                  | none => rfl
                  | some g =>
                    have := hcomb (by rw [hgx]; rfl)
                    rw [happ] at this
                    simp at this
                have h3n : (integerise p3).isNone = true := by rw [hain, happ]; rfl
                have h3s : (integerise p3).isSome = false := by rw [hais, happ]; rfl
                have h4s : (integerise p4).isSome = false := by rw [hgis, hgnone]; rfl
                have hbc : specBadCombo n p3 p4 = false := by
                  simp [specBadCombo, if_neg hp3, h3s, h4s]
                simp [resultCat, catOf, finalCheck, hoorn, hoora, hoorg, hp3, hmu, hbc, happ, hgnone]
            | some nv =>
              have h2n : (integerise n).isNone = false := by rw [hnin]; rfl
              have hbc : specBadCombo n p3 p4 = false := by
                simp only [specBadCombo, if_neg hp3, hgis, hais, h2n, Bool.and_false,
                  Bool.or_false]
                cases hgx : grp.isSome with
                | false => simp
                | true =>
                  have h := hcomb hgx
                  simp only [Bool.not_eq_true] at h
                  simp [hgx, hain, h]
              simp [resultCat, catOf, finalCheck, hoorn, hoora, hoorg, hp3, hmu, hbc]

/-- C7: construction is pure and fails on the first violated rule in the
order: missing project, invalid project name, out-of-range numeric
field, missing unit address, invalid combination.  The category of the
outcome of `construct` (`none` on success) is exactly the category of
the first violated rule. -/
theorem C7_construct_first_violated_rule (p? : Option String) (n p3 p4 p5 : JSVal) :
    resultCat (construct p? n p3 p4 p5) = specFirstErr p? n p3 p4 p5 := by
  cases p? with
  | none => rfl
  | some pname =>
    simp only [construct, specFirstErr]
    cases hpn : validatedProjectName pname with
    | error e =>
      have hcat := validatedProjectName_error_cat hpn
      simp [projNameBad, hpn, resultCat, hcat]
    | ok proj =>
      have hpb : projNameBad pname = false := by simp [projNameBad, hpn]
      rw [hpb]
      simp only [Bool.false_eq_true, if_false]
      cases htr : truthy p5 with
      | true =>
        cases hc : validatedChannelNumber p5 with
        | error e =>
          obtain ⟨hcat, hcor⟩ := validatedChannelNumber_error_facts hc
          simp [htr, hc, resultCat, hcat, specOutOfRange, hcor htr]
        | ok channel =>
          have hcf := validatedChannelNumber_ok_chanFalse hc
          simp only [htr, if_true, hc, specOutOfRange, hcf, Bool.false_or]
          exact C7_tail proj channel n p3 p4
      | false =>
        have hcf : chanOutOfRange p5 = false := by simp [chanOutOfRange, htr]
        simp only [htr, Bool.false_eq_true, if_false, specOutOfRange, hcf, Bool.false_or]
        exact C7_tail proj none n p3 p4

/-! ### Order lemmas for the JS string comparison -/

theorem listLt_irrefl (l : List Char) : listLt l l = false := by
  induction l with
  | nil => rfl
  | cons c t ih => simp [listLt, ih]

theorem listLt_asymm {l1 l2 : List Char} (h : listLt l1 l2 = true) :
    listLt l2 l1 = false := by
  induction l1 generalizing l2 with
  | nil => cases l2 with
    | nil => rfl
    | cons b bs => rfl
  | cons a as ih =>
    cases l2 with
    | nil => simp [listLt] at h
    | cons b bs =>
      simp only [listLt] at h ⊢
      rcases Nat.lt_trichotomy a.toNat b.toNat with hab | hab | hab
      · rw [if_neg (by omega), if_pos hab]
      · rw [if_neg (by omega), if_neg (by omega)]
        rw [if_neg (by omega), if_neg (by omega)] at h
        exact ih h
      · rw [if_neg (by omega), if_pos hab] at h
        simp at h

theorem listLt_trans {l1 l2 l3 : List Char} (h1 : listLt l1 l2 = true)
    (h2 : listLt l2 l3 = true) : listLt l1 l3 = true := by
  induction l1 generalizing l2 l3 with
  | nil =>
    cases l3 with
    | nil =>
      cases l2 with
      | nil => exact h2
      | cons b bs => simp [listLt] at h2
    | cons c cs => rfl
  | cons a as ih =>
    cases l2 with
    | nil => simp [listLt] at h1
    | cons b bs =>
      cases l3 with
      | nil => simp [listLt] at h2
      | cons c cs =>
        simp only [listLt] at h1 h2 ⊢
        rcases Nat.lt_trichotomy a.toNat b.toNat with hab | hab | hab
        · rcases Nat.lt_trichotomy b.toNat c.toNat with hbc | hbc | hbc
          · rw [if_pos (by omega)]
          · rw [if_pos (by omega)]
          · rw [if_neg (by omega), if_pos hbc] at h2
            simp at h2
        · rcases Nat.lt_trichotomy b.toNat c.toNat with hbc | hbc | hbc
          · rw [if_pos (by omega)]
          · rw [if_neg (by omega), if_neg (by omega)] at h1 h2
            rw [if_neg (by omega), if_neg (by omega)]
            exact ih h1 h2
          · rw [if_neg (by omega), if_pos hbc] at h2
            simp at h2
        · rw [if_neg (by omega), if_pos hab] at h1
          simp at h1

theorem listLt_eq_of_not_lt {l1 l2 : List Char} (h1 : listLt l1 l2 = false)
    (h2 : listLt l2 l1 = false) : l1 = l2 := by
  induction l1 generalizing l2 with
  | nil =>
    cases l2 with
    | nil => rfl
    | cons b bs => simp [listLt] at h1
  | cons a as ih =>
    cases l2 with
    | nil => simp [listLt] at h2
    | cons b bs =>
      simp only [listLt] at h1 h2
      rcases Nat.lt_trichotomy a.toNat b.toNat with hab | hab | hab
      · rw [if_pos hab] at h1
        simp at h1
      · rw [if_neg (by omega), if_neg (by omega)] at h1 h2
        have hch : a = b := by
          have := congrArg Char.ofNat hab
          rwa [Char.ofNat_toNat, Char.ofNat_toNat] at this
        rw [hch, ih h1 h2]
      · rw [if_pos hab] at h2
        simp at h2

theorem strLt_irrefl (s : String) : strLt s s = false := listLt_irrefl _

theorem strLt_ne {a b : String} (h : strLt a b = true) : a ≠ b := by
  intro hab
  subst hab
  rw [strLt_irrefl] at h
  exact Bool.noConfusion h

theorem strLt_eq_of_not_lt {a b : String} (h1 : strLt a b = false)
    (h2 : strLt b a = false) : a = b := by
  have hd := listLt_eq_of_not_lt h1 h2
  cases a with
  | mk d1 =>
    cases b with
    | mk d2 => exact congrArg String.mk hd

/-! ### Claim C8 (amended): the three comparison tiers -/

/-- C8 (amended): `compare` orders by project (JS string order), then
puts Unit-kind after non-unit, then orders by the hash string — except
that a hash tie yields `1`, not `0`. -/
theorem C8_compare_tiers (a b : CBusNetId) :
    (strLt a.project b.project = true → CBusNetId.compare a b = -1) ∧
    (strLt b.project a.project = true → CBusNetId.compare a b = 1) ∧
    (a.project = b.project → a.isUnitId = true → b.isUnitId = false →
      CBusNetId.compare a b = 1) ∧
    (a.project = b.project → a.isUnitId = false → b.isUnitId = true →
      CBusNetId.compare a b = -1) ∧
    (a.project = b.project → a.isUnitId = b.isUnitId →
      strLt a.getHash b.getHash = true → CBusNetId.compare a b = -1) ∧
    (a.project = b.project → a.isUnitId = b.isUnitId →
      strLt a.getHash b.getHash = false → CBusNetId.compare a b = 1) := by
  refine ⟨?_, ?_, ?_, ?_, ?_, ?_⟩
  · intro h
    simp [CBusNetId.compare, strLt_ne h, h]
  · intro h
    have hne : a.project ≠ b.project := Ne.symm (strLt_ne h)
    have hf : strLt a.project b.project = false := listLt_asymm h
    simp [CBusNetId.compare, hne, hf]
  · intro hp hau hbu
    simp [CBusNetId.compare, hp, hau, hbu]
  · intro hp hau hbu
    simp [CBusNetId.compare, hp, hau, hbu]
  · intro hp hu h
    simp [CBusNetId.compare, hp, hu, h]
  · intro hp hu h
    simp [CBusNetId.compare, hp, hu, h]

/-- C8 witness. -/
theorem C8_compare_tiers_witness :
    CBusNetId.compare ⟨"AAA", some 1, none, none, none, none⟩
        ⟨"BBB", some 1, none, none, none, none⟩ = -1 ∧
    CBusNetId.compare ⟨"AAA", some 1, none, none, some 7, none⟩
        ⟨"AAA", some 1, some 2, some 3, none, none⟩ = 1 :=
  ⟨(C8_compare_tiers _ _).1 (by decide),
   (C8_compare_tiers _ _).2.2.1 rfl (by decide) (by decide)⟩

/-! ### Claim C3 (amended): the hierarchy rules the constructor enforces -/

/-- C3 (amended): every construction result satisfies group → application,
application → network and unitAddress → network; a channel, however, may
be present without a group. -/
theorem C3_constructed_hierarchy {p? : Option String} {n p3 p4 p5 : JSVal}
    {x : CBusNetId} (h : construct p? n p3 p4 p5 = .ok x) :
    (x.group.isSome → x.application.isSome) ∧
    (x.application.isSome → x.network.isSome) ∧
    (x.unitAddress.isSome → x.network.isSome) := by
  obtain ⟨-, -, -, -, -, -, -, hga, han, hun⟩ := construct_ok_WF h
  exact ⟨hga, han, hun⟩

/-- C3 witness. -/
theorem C3_constructed_hierarchy_witness :
    ((⟨"SHAC", some 254, some 56, some 191, none, none⟩ : CBusNetId).group.isSome →
      (⟨"SHAC", some 254, some 56, some 191, none, none⟩ : CBusNetId).application.isSome) ∧
    ((⟨"SHAC", some 254, some 56, some 191, none, none⟩ : CBusNetId).application.isSome →
      (⟨"SHAC", some 254, some 56, some 191, none, none⟩ : CBusNetId).network.isSome) ∧
    ((⟨"SHAC", some 254, some 56, some 191, none, none⟩ : CBusNetId).unitAddress.isSome →
      (⟨"SHAC", some 254, some 56, some 191, none, none⟩ : CBusNetId).network.isSome) :=
  C3_constructed_hierarchy
    (show construct (some "SHAC") (.num 254) (.num 56) (.num 191) .undef =
      .ok ⟨"SHAC", some 254, some 56, some 191, none, none⟩ by decide)

/-! ### The five shapes of a well-formed NetId -/

theorem WF_shapes {x : CBusNetId} (hx : WF x) :
    (x.network = none ∧ x.application = none ∧ x.group = none ∧ x.unitAddress = none) ∨
    (∃ nv, x.network = some nv ∧ x.application = none ∧ x.group = none ∧
      x.unitAddress = none) ∨
    (∃ nv a, x.network = some nv ∧ x.application = some a ∧ x.group = none ∧
      x.unitAddress = none) ∨
    (∃ nv a g, x.network = some nv ∧ x.application = some a ∧ x.group = some g ∧
      x.unitAddress = none) ∨
    (∃ nv u, x.network = some nv ∧ x.application = none ∧ x.group = none ∧
      x.unitAddress = some u) := by
  obtain ⟨-, -, -, -, -, -, hexcl, hga, han, hun⟩ := hx
  cases hu : x.unitAddress with
  | some u =>
    obtain ⟨ha, hg⟩ := hexcl (by rw [hu]; rfl)
    obtain ⟨nv, hn⟩ := Option.isSome_iff_exists.mp (hun (by rw [hu]; rfl))
    exact Or.inr (Or.inr (Or.inr (Or.inr ⟨nv, u, hn, ha, hg, rfl⟩)))
  | none =>
    cases hg : x.group with
    | some g =>
      have has := hga (by rw [hg]; rfl)
      obtain ⟨a, haa⟩ := Option.isSome_iff_exists.mp has
      obtain ⟨nv, hn⟩ := Option.isSome_iff_exists.mp (han has)
      exact Or.inr (Or.inr (Or.inr (Or.inl ⟨nv, a, g, hn, haa, rfl, rfl⟩)))
    | none =>
      cases ha : x.application with
      | some a =>
        obtain ⟨nv, hn⟩ := Option.isSome_iff_exists.mp (han (by rw [ha]; rfl))
        exact Or.inr (Or.inr (Or.inl ⟨nv, a, hn, rfl, rfl, rfl⟩))
      | none =>
        cases hn : x.network with
        | some nv => exact Or.inr (Or.inl ⟨nv, rfl, rfl, rfl, rfl⟩)
        | none => exact Or.inl ⟨rfl, rfl, rfl, rfl⟩

/-! ### Claim C9 (amended): classification predicates -/

/-- C9 (amended): on every constructed NetId exactly one of the five
predicates holds, except for a Group-kind value with a *truthy* channel,
on which none of them holds.  (A present channel `0` is falsy, so such a
group still reports `isGroupId`.) -/
theorem C9_classification {p? : Option String} {n p3 p4 p5 : JSVal} {x : CBusNetId}
    (h : construct p? n p3 p4 p5 = .ok x) :
    (¬(x.group.isSome = true ∧ x.truthyChannel = true) →
      ((if x.isProjectId then 1 else 0) + (if x.isNetworkId then 1 else 0) +
       (if x.isApplicationId then 1 else 0) + (if x.isGroupId then 1 else 0) +
       (if x.isUnitId then 1 else 0) = 1)) ∧
    ((x.group.isSome = true ∧ x.truthyChannel = true) →
      (x.isProjectId = false ∧ x.isNetworkId = false ∧ x.isApplicationId = false ∧
       x.isGroupId = false ∧ x.isUnitId = false)) := by
  have hx := construct_ok_WF h
  rcases WF_shapes hx with ⟨hn, ha, hg, hu⟩ | ⟨nv, hn, ha, hg, hu⟩ |
    ⟨nv, a, hn, ha, hg, hu⟩ | ⟨nv, a, g, hn, ha, hg, hu⟩ | ⟨nv, u, hn, ha, hg, hu⟩
  · constructor
    · intro _
      simp [CBusNetId.isProjectId, CBusNetId.isNetworkId, CBusNetId.isApplicationId,
        CBusNetId.isGroupId, CBusNetId.isUnitId, hn, ha, hg, hu]
    · intro hc
      rw [hg] at hc
      simp at hc
  · constructor
    · intro _
      simp [CBusNetId.isProjectId, CBusNetId.isNetworkId, CBusNetId.isApplicationId,
        CBusNetId.isGroupId, CBusNetId.isUnitId, hn, ha, hg, hu]
    · intro hc
      rw [hg] at hc
      simp at hc
  · constructor
    · intro _
      simp [CBusNetId.isProjectId, CBusNetId.isNetworkId, CBusNetId.isApplicationId,
        CBusNetId.isGroupId, CBusNetId.isUnitId, hn, ha, hg, hu]
    · intro hc
      rw [hg] at hc
      simp at hc
  · by_cases hch : x.truthyChannel = true
    · constructor
      · intro hcon
        exact absurd ⟨by rw [hg]; rfl, hch⟩ hcon
      · intro _
        simp [CBusNetId.isProjectId, CBusNetId.isNetworkId, CBusNetId.isApplicationId,
          CBusNetId.isGroupId, CBusNetId.isUnitId, hn, ha, hg, hu, hch]
    · have hch' : x.truthyChannel = false := by
        cases hcc : x.truthyChannel
        · rfl
        · exact absurd hcc hch
      constructor
      · intro _
        simp [CBusNetId.isProjectId, CBusNetId.isNetworkId, CBusNetId.isApplicationId,
          CBusNetId.isGroupId, CBusNetId.isUnitId, hn, ha, hg, hu, hch']
      · intro hc
        exact absurd hc.2 hch
  · constructor
    · intro _
      simp [CBusNetId.isProjectId, CBusNetId.isNetworkId, CBusNetId.isApplicationId,
        CBusNetId.isGroupId, CBusNetId.isUnitId, hn, ha, hg, hu]
    · intro hc
      rw [hg] at hc
      simp at hc

/-- C9 witness: a Group-kind with truthy channel has no true predicate;
a plain group has exactly one. -/
theorem C9_classification_witness :
    ((⟨"SHAC", some 254, some 56, some 191, none, some 5⟩ : CBusNetId).isProjectId = false ∧
     (⟨"SHAC", some 254, some 56, some 191, none, some 5⟩ : CBusNetId).isNetworkId = false ∧
     (⟨"SHAC", some 254, some 56, some 191, none, some 5⟩ : CBusNetId).isApplicationId = false ∧
     (⟨"SHAC", some 254, some 56, some 191, none, some 5⟩ : CBusNetId).isGroupId = false ∧
     (⟨"SHAC", some 254, some 56, some 191, none, some 5⟩ : CBusNetId).isUnitId = false) :=
  (C9_classification
    (show construct (some "SHAC") (.num 254) (.num 56) (.num 191) (.num 5) =
      .ok ⟨"SHAC", some 254, some 56, some 191, none, some 5⟩ by decide)).2
    (by decide)

/-! ### Claim C6: the hash formulas -/

/-- C6: on every constructed NetId, `getHash` is the project string for a
Project-kind, the hex rendering of `(2<<24)|(network<<16)|unitAddress`
for a Unit-kind, and the hex rendering of
`(1<<24)|(network<<16)|(application<<8)|group` (absent fields as 0,
channel ignored) otherwise. -/
theorem C6_getHash_formulas {p? : Option String} {n p3 p4 p5 : JSVal} {x : CBusNetId}
    (h : construct p? n p3 p4 p5 = .ok x) :
    (x.isProjectId = true → x.getHash = x.project) ∧
    (x.isUnitId = true →
      x.getHash = String.mk (Nat.toDigits 16
        ((2 <<< 24) ||| ((x.network.getD 0) <<< 16) ||| (x.unitAddress.getD 0)))) ∧
    (x.isProjectId = false → x.isUnitId = false →
      x.getHash = String.mk (Nat.toDigits 16
        ((1 <<< 24) ||| ((x.network.getD 0) <<< 16) |||
         ((x.application.getD 0) <<< 8) ||| (x.group.getD 0)))) := by
  have hx := construct_ok_WF h
  obtain ⟨-, -, -, -, -, -, -, -, -, hun⟩ := hx
  refine ⟨?_, ?_, ?_⟩
  · intro hp
    simp [CBusNetId.getHash, hp]
  · intro hu
    have hnp : x.isProjectId = false := by
      have := hun hu
      simp only [CBusNetId.isProjectId, Option.isNone_iff_eq_none]
      simp only [Option.isSome_iff_exists] at this
      obtain ⟨nv, hnv⟩ := this
      simp [hnv]
    simp [CBusNetId.getHash, hnp, hu]
  · intro hp hu
    simp [CBusNetId.getHash, hp, hu]

/-- C6 witness: the three formulas evaluated on a unit, a group and a
project identifier. -/
theorem C6_getHash_formulas_witness :
    CBusNetId.getHash ⟨"SHAC", some 254, none, none, some 22, none⟩ = "2fe0016" ∧
    CBusNetId.getHash ⟨"SHAC", some 254, some 56, some 191, none, none⟩ = "1fe38bf" ∧
    CBusNetId.getHash ⟨"ABC", none, none, none, none, none⟩ = "ABC" :=
  ⟨(C6_getHash_formulas
      (show construct (some "SHAC") (.num 254) (.str "p") (.num 22) .undef =
        .ok ⟨"SHAC", some 254, none, none, some 22, none⟩ by decide)).2.1 rfl,
   (C6_getHash_formulas
      (show construct (some "SHAC") (.num 254) (.num 56) (.num 191) .undef =
        .ok ⟨"SHAC", some 254, some 56, some 191, none, none⟩ by decide)).2.2 rfl rfl,
   (C6_getHash_formulas
      (show construct (some "ABC") .undef .undef .undef .undef =
        .ok ⟨"ABC", none, none, none, none, none⟩ by decide)).1 rfl⟩

/-! ### `Nat.toDigits 16` agrees with `hexSpec` -/

theorem hexSpec_low {n : Nat} (h : n < 16) : hexSpec n = [Nat.digitChar n] := by
  rw [hexSpec]
  simp [h]

theorem hexSpec_high {n : Nat} (h : ¬n < 16) :
    hexSpec n = hexSpec (n / 16) ++ [Nat.digitChar (n % 16)] := by
  rw [hexSpec]
  simp [h]

theorem toDigitsCore16_eq (fuel : Nat) : ∀ (n : Nat) (ds : List Char), n < fuel →
    Nat.toDigitsCore 16 fuel n ds = hexSpec n ++ ds := by
  induction fuel with
  | zero => intro n ds h; omega
  | succ f ih =>
    intro n ds h
    simp only [Nat.toDigitsCore]
    by_cases h16 : n < 16
    · have hd0 : n / 16 = 0 := Nat.div_eq_of_lt h16
      rw [if_pos hd0, hexSpec_low h16, Nat.mod_eq_of_lt h16]
      rfl
    · have hd0 : ¬n / 16 = 0 := by omega
      rw [if_neg hd0, ih (n / 16) _ (by omega), hexSpec_high h16, List.append_assoc]
      rfl

theorem toDigits16_eq_hexSpec (n : Nat) : Nat.toDigits 16 n = hexSpec n := by
  unfold Nat.toDigits
  rw [toDigitsCore16_eq (n + 1) n [] (by omega), List.append_nil]

theorem head?_append_left {α : Type} {l l' : List α} (h : l ≠ []) :
    (l ++ l').head? = l.head? := by
  cases l with
  | nil => exact absurd rfl h
  | cons a t => rfl

theorem hexSpec_ne_nil (n : Nat) : hexSpec n ≠ [] := by
  by_cases h : n < 16
  · rw [hexSpec_low h]; simp
  · rw [hexSpec_high h]; simp

theorem hexSpec_all_hex (n : Nat) : (hexSpec n).all isHexCh = true := by
  induction n using Nat.strong_induction_on with
  | _ n ih =>
    have hdig : ∀ m : Nat, m < 16 → isHexCh (Nat.digitChar m) = true := by decide
    by_cases h : n < 16
    · rw [hexSpec_low h]
      simp [hdig n h]
    · rw [hexSpec_high h, List.all_append]
      have h1 := ih (n / 16) (Nat.div_lt_self (by omega) (by omega))
      have h2 : isHexCh (Nat.digitChar (n % 16)) = true := hdig _ (by omega)
      simp [h1, h2]

theorem hexSpec_head_high {n : Nat} (h : 16 ≤ n) :
    (hexSpec n).head? = (hexSpec (n / 16)).head? := by
  rw [hexSpec_high (by omega), head?_append_left (hexSpec_ne_nil _)]

theorem hexSpec_head_div_pow (k : Nat) : ∀ n : Nat, 16 ^ k ≤ n →
    (hexSpec n).head? = (hexSpec (n / 16 ^ k)).head? := by
  induction k with
  | zero => intro n h; simp
  | succ k ih =>
    intro n h
    have hle : (16 : Nat) ≤ 16 ^ (k + 1) := by
      calc (16 : Nat) = 16 ^ 1 := (pow_one 16).symm
      _ ≤ 16 ^ (k + 1) := Nat.pow_le_pow_right (by omega) (by omega)
    have h16 : 16 ≤ n := le_trans hle h
    have hdiv : 16 ^ k ≤ n / 16 := by
      rw [Nat.le_div_iff_mul_le (by omega : 0 < 16)]
      calc 16 ^ k * 16 = 16 ^ (k + 1) := (pow_succ 16 k).symm
      _ ≤ n := h
    rw [hexSpec_head_high h16, ih (n / 16) hdiv, Nat.div_div_eq_div_mul]
    rw [show 16 * 16 ^ k = 16 ^ (k + 1) by rw [pow_succ]; ring]

theorem hexSpec_head_of_range {h : Nat} (d : Nat) (hd1 : 1 ≤ d) (hd2 : d < 16)
    (hlo : d * 16 ^ 6 ≤ h) (hhi : h < (d + 1) * 16 ^ 6) :
    (hexSpec h).head? = some (Nat.digitChar d) := by
  have hpow : 16 ^ 6 ≤ h := le_trans (by nlinarith) hlo
  rw [hexSpec_head_div_pow 6 h hpow]
  have hdiv : h / 16 ^ 6 = d := Nat.div_eq_of_lt_le hlo hhi
  rw [hdiv, hexSpec_low hd2]
  rfl

/-! ### The numeric hash values as sums -/

theorem unit_hash_val (net ua : Nat) (hn : net ≤ 255) (hu : ua ≤ 255) :
    (2 <<< 24) ||| (net <<< 16) ||| ua = 33554432 + net * 65536 + ua := by
  have e1 : (2 <<< 24) ||| (net <<< 16) = 33554432 + net * 65536 := by
    have hb : net * 65536 < 2 ^ 24 := by norm_num; omega
    have h := Nat.mul_add_lt_is_or hb 2
    rw [Nat.shiftLeft_eq, Nat.shiftLeft_eq]
    norm_num at h ⊢
    omega
  rw [e1]
  have hb : ua < 2 ^ 16 := Nat.lt_of_le_of_lt hu (by norm_num)
  have h := Nat.mul_add_lt_is_or hb (512 + net)
  have e : 2 ^ 16 * (512 + net) = 33554432 + net * 65536 := by ring
  rw [e] at h
  exact h.symm

theorem group_hash_val (net app grp : Nat) (hn : net ≤ 255) (ha : app ≤ 255)
    (hg : grp ≤ 255) :
    (1 <<< 24) ||| (net <<< 16) ||| (app <<< 8) ||| grp =
      16777216 + net * 65536 + app * 256 + grp := by
  have e1 : (1 <<< 24) ||| (net <<< 16) = 16777216 + net * 65536 := by
    have hb : net * 65536 < 2 ^ 24 := by norm_num; omega
    have h := Nat.mul_add_lt_is_or hb 1
    rw [Nat.shiftLeft_eq, Nat.shiftLeft_eq]
    norm_num at h ⊢
    omega
  rw [e1]
  have e2 : (16777216 + net * 65536) ||| (app <<< 8) =
      16777216 + net * 65536 + app * 256 := by
    have hb : app * 256 < 2 ^ 16 := by norm_num; omega
    have h := Nat.mul_add_lt_is_or hb (256 + net)
    have e : 2 ^ 16 * (256 + net) = 16777216 + net * 65536 := by ring
    rw [e] at h
    rw [Nat.shiftLeft_eq]
    norm_num
    omega
  rw [e2]
  have hb : grp < 2 ^ 8 := Nat.lt_of_le_of_lt hg (by norm_num)
  have h := Nat.mul_add_lt_is_or hb (65536 + net * 256 + app)
  have e : 2 ^ 8 * (65536 + net * 256 + app) = 16777216 + net * 65536 + app * 256 := by
    ring
  rw [e] at h
  exact h.symm

/-! ### Character-class arithmetic and the project-name format -/

theorem char_eq_iff_toNat {c d : Char} : c = d ↔ c.toNat = d.toNat := by
  constructor
  · intro h; rw [h]
  · intro h
    have := congrArg Char.ofNat h
    rwa [Char.ofNat_toNat, Char.ofNat_toNat] at this

theorem isProjCh_arith {c : Char} (h : isProjCh c = true) :
    (65 ≤ c.toNat ∧ c.toNat ≤ 90) ∨ (48 ≤ c.toNat ∧ c.toNat ≤ 57) ∨ c.toNat = 95 := by
  simp only [isProjCh, isUpperCh, isDigitCh, Bool.or_eq_true, decide_eq_true_eq] at h
  rcases h with (h | h) | h
  · exact Or.inl h
  · exact Or.inr (Or.inl h)
  · exact Or.inr (Or.inr (by rw [h]; rfl))

theorem isNumericCh_false_arith {c : Char} (h : isNumericCh c = false) :
    ¬((48 ≤ c.toNat ∧ c.toNat ≤ 57) ∨ c.toNat = 95) := by
  simp only [isNumericCh, isDigitCh, Bool.or_eq_false_iff, decide_eq_false_iff_not] at h
  rintro (hd | hu)
  · exact h.1 hd
  · have : c = '_' := char_eq_iff_toNat.mpr (by rw [hu]; rfl)
    rw [this] at h
    simp at h

theorem isHexCh_arith {c : Char} (h : isHexCh c = true) :
    (48 ≤ c.toNat ∧ c.toNat ≤ 57) ∨ (97 ≤ c.toNat ∧ c.toNat ≤ 102) := by
  simpa [isHexCh, decide_eq_true_eq] using h

theorem validatedProjectName_ok_format {s : String} (h : validatedProjectName s = .ok s) :
    (1 ≤ s.length ∧ s.length ≤ 8 ∧ s.data.all isProjCh = true) ∧
    ¬(s.data.all isNumericCh = true) := by
  unfold validatedProjectName at h
  repeat' split at h
  any_goals exact Except.noConfusion h
  rename_i c1 c2 c3 c4
  have hfmt : 1 ≤ s.length ∧ s.length ≤ 8 ∧ s.data.all isProjCh = true := not_not.mp c4
  exact ⟨hfmt, fun hnum => c3 ⟨hfmt.1, hfmt.2.1, hnum⟩⟩

/-- A validated project name is never a lowercase-hex digit string. -/
theorem validName_ne_hexString {P : String} (hv : validatedProjectName P = .ok P)
    (n : Nat) : P ≠ String.mk (hexSpec n) := by
  obtain ⟨⟨hl1, hl2, hall⟩, hnotnum⟩ := validatedProjectName_ok_format hv
  have hex : ∃ ch ∈ P.data, isNumericCh ch = false := by
    by_contra hco
    push_neg at hco
    apply hnotnum
    rw [List.all_eq_true]
    intro ch hch
    cases hx : isNumericCh ch with
    | true => rfl
    | false => exact absurd hx (hco ch hch)
  obtain ⟨ch, hmem, hnum⟩ := hex
  have hproj : isProjCh ch = true := List.all_eq_true.mp hall ch hmem
  intro heq
  have hdata : P.data = hexSpec n := congrArg String.data heq
  rw [hdata] at hmem
  have hhex : isHexCh ch = true := List.all_eq_true.mp (hexSpec_all_hex n) ch hmem
  have h1 := isProjCh_arith hproj
  have h2 := isNumericCh_false_arith hnum
  have h3 := isHexCh_arith hhex
  omega

/-! ### Hash shapes of well-formed NetIds -/

theorem getHash_proj {x : CBusNetId} (hp : x.isProjectId = true) :
    x.getHash = x.project := by
  simp [CBusNetId.getHash, hp]

theorem WF_proj_not_unit {x : CBusNetId} (hx : WF x) (hp : x.isProjectId = true) :
    x.isUnitId = false := by
  obtain ⟨-, -, -, -, -, -, -, -, -, hun⟩ := hx
  cases hu : x.isUnitId with
  | false => rfl
  | true =>
    have := hun hu
    simp only [CBusNetId.isProjectId, Option.isNone_iff_eq_none] at hp
    rw [hp] at this
    exact Bool.noConfusion this

theorem WF_unit_not_proj {x : CBusNetId} (hx : WF x) (hu : x.isUnitId = true) :
    x.isProjectId = false := by
  cases hp : x.isProjectId with
  | false => rfl
  | true => exact absurd hu (by rw [WF_proj_not_unit hx hp]; simp)

theorem getHash_unit_shape {x : CBusNetId} (hx : WF x) (hu : x.isUnitId = true) :
    ∃ n, x.getHash = String.mk (hexSpec n) ∧ 33554432 ≤ n ∧ n < 50331648 := by
  have hnp := WF_unit_not_proj hx hu
  obtain ⟨-, hnet, -, -, hua, -, -, -, -, -⟩ := hx
  simp only [numOk] at hnet hua
  refine ⟨33554432 + (x.network.getD 0) * 65536 + (x.unitAddress.getD 0), ?_, by omega, by omega⟩
  simp only [CBusNetId.getHash, hnp, hu, Bool.false_eq_true, if_false, if_true]
  rw [toDigits16_eq_hexSpec, unit_hash_val _ _ hnet hua]

theorem getHash_else_shape {x : CBusNetId} (hp : x.isProjectId = false)
    (hu : x.isUnitId = false) (hnet : numOk x.network) (happ : numOk x.application)
    (hgrp : numOk x.group) :
    ∃ n, x.getHash = String.mk (hexSpec n) ∧ 16777216 ≤ n ∧ n < 33554432 := by
  simp only [numOk] at hnet happ hgrp
  refine ⟨16777216 + (x.network.getD 0) * 65536 + (x.application.getD 0) * 256 +
    (x.group.getD 0), ?_, by omega, by omega⟩
  simp only [CBusNetId.getHash, hp, hu, Bool.false_eq_true, if_false]
  rw [toDigits16_eq_hexSpec, group_hash_val _ _ _ hnet happ hgrp]

/-- Equal hashes of well-formed NetIds force the same unit-ness (the hex
strings of the two numeric ranges start with different digits, and a
project name is never a hex string). -/
theorem isEquals_rank {a b : CBusNetId} (ha : WF a) (hb : WF b)
    (he : a.isEquals b = true) : a.isUnitId = b.isUnitId := by
  have hhash : a.getHash = b.getHash := by
    simp only [CBusNetId.isEquals, Bool.and_eq_true, beq_iff_eq] at he
    exact he.2
  have hproj : a.project = b.project := by
    simp only [CBusNetId.isEquals, Bool.and_eq_true, beq_iff_eq] at he
    exact he.1
  cases hau : a.isUnitId with
  | true =>
    cases hbu : b.isUnitId with
    | true => rfl
    | false =>
      obtain ⟨n1, he1, hlo1, hhi1⟩ := getHash_unit_shape ha hau
      cases hbp : b.isProjectId with
      | true =>
        have hbh := getHash_proj hbp
        have hbeq : b.project = String.mk (hexSpec n1) := by rw [← hbh, ← hhash, he1]
        exact absurd hbeq (validName_ne_hexString hb.1 n1)
      | false =>
        obtain ⟨n2, he2, hlo2, hhi2⟩ :=
          getHash_else_shape hbp hbu hb.2.1 hb.2.2.1 hb.2.2.2.1
        rw [he1, he2] at hhash
        have hdata : hexSpec n1 = hexSpec n2 := by
          have := congrArg String.data hhash
          simpa using this
        have hh1 : (hexSpec n1).head? = some (Nat.digitChar 2) :=
          hexSpec_head_of_range 2 (by omega) (by omega) (by norm_num; omega)
            (by norm_num; omega)
        have hh2 : (hexSpec n2).head? = some (Nat.digitChar 1) :=
          hexSpec_head_of_range 1 (by omega) (by omega) (by norm_num; omega)
            (by norm_num; omega)
        rw [hdata, hh2] at hh1
        exact absurd hh1 (by decide)
  | false =>
    cases hbu : b.isUnitId with
    | false => rfl
    | true =>
      obtain ⟨n2, he2, hlo2, hhi2⟩ := getHash_unit_shape hb hbu
      cases hap : a.isProjectId with
      | true =>
        have hah := getHash_proj hap
        have haeq : a.project = String.mk (hexSpec n2) := by rw [← hah, hhash, he2]
        exact absurd haeq (validName_ne_hexString ha.1 n2)
      | false =>
        obtain ⟨n1, he1, hlo1, hhi1⟩ :=
          getHash_else_shape hap hau ha.2.1 ha.2.2.1 ha.2.2.2.1
        rw [he1, he2] at hhash
        have hdata : hexSpec n1 = hexSpec n2 := by
          have := congrArg String.data hhash
          simpa using this
        have hh1 : (hexSpec n1).head? = some (Nat.digitChar 1) :=
          hexSpec_head_of_range 1 (by omega) (by omega) (by norm_num; omega)
            (by norm_num; omega)
        have hh2 : (hexSpec n2).head? = some (Nat.digitChar 2) :=
          hexSpec_head_of_range 2 (by omega) (by omega) (by norm_num; omega)
            (by norm_num; omega)
        rw [hdata, hh2] at hh1
        exact absurd hh1 (by decide)

/-! ### Claim C1 (amended): compare as a strict order -/

theorem compare_vals (a b : CBusNetId) :
    CBusNetId.compare a b = -1 ∨ CBusNetId.compare a b = 1 := by
  unfold CBusNetId.compare
  by_cases hp : a.project ≠ b.project
  · rw [if_pos hp]
    by_cases hl : strLt a.project b.project
    · rw [if_pos hl]; exact Or.inl rfl
    · rw [if_neg hl]; exact Or.inr rfl
  · rw [if_neg hp]
    by_cases hu : a.isUnitId ≠ b.isUnitId
    · rw [if_pos hu]
      by_cases hau : a.isUnitId
      · rw [if_pos hau]; exact Or.inr rfl
      · rw [if_neg hau]; exact Or.inl rfl
    · rw [if_neg hu]
      by_cases hh : strLt a.getHash b.getHash
      · rw [if_pos hh]; exact Or.inl rfl
      · rw [if_neg hh]; exact Or.inr rfl

theorem compare_of_proj_ne {a b : CBusNetId} (hp : a.project ≠ b.project) :
    CBusNetId.compare a b = (if strLt a.project b.project then -1 else 1) := by
  unfold CBusNetId.compare
  rw [if_pos hp]

theorem compare_of_proj_eq_rank_ne {a b : CBusNetId} (hp : a.project = b.project)
    (hu : a.isUnitId ≠ b.isUnitId) :
    CBusNetId.compare a b = (if a.isUnitId then 1 else -1) := by
  unfold CBusNetId.compare
  rw [if_neg (by simp [hp]), if_pos hu]

theorem compare_of_proj_eq_rank_eq {a b : CBusNetId} (hp : a.project = b.project)
    (hu : a.isUnitId = b.isUnitId) :
    CBusNetId.compare a b = (if strLt a.getHash b.getHash then -1 else 1) := by
  unfold CBusNetId.compare
  rw [if_neg (by simp [hp]), if_neg (by simp [hu])]

theorem compare_neg_one_iff (a b : CBusNetId) :
    CBusNetId.compare a b = -1 ↔
      (strLt a.project b.project = true ∨
        (a.project = b.project ∧
          ((a.isUnitId = false ∧ b.isUnitId = true) ∨
           (a.isUnitId = b.isUnitId ∧ strLt a.getHash b.getHash = true)))) := by
  by_cases hp : a.project = b.project
  · by_cases hu : a.isUnitId = b.isUnitId
    · rw [compare_of_proj_eq_rank_eq hp hu]
      cases hl : strLt a.getHash b.getHash
      · have hpl : strLt a.project b.project = false := by rw [hp]; exact strLt_irrefl _
        simp only [hl, Bool.false_eq_true, if_false, hpl]
        norm_num
        intro h haf
        rw [← hu]
        exact haf
      · simp [hl, hp, hu, strLt_irrefl]
    · rw [compare_of_proj_eq_rank_ne hp hu]
      cases hau : a.isUnitId <;> cases hbu : b.isUnitId
      · exact absurd (hau.trans hbu.symm) hu
      · simp [hau, hbu, hp, strLt_irrefl]
      · simp only [hau, if_true, hp, strLt_irrefl]
        norm_num [hbu]
      · exact absurd (hau.trans hbu.symm) hu
  · rw [compare_of_proj_ne hp]
    cases hl : strLt a.project b.project
    · simp only [hl, Bool.false_eq_true, if_false]
      norm_num [hp]
    · simp [hl, hp]

/-- C1 (amended): on well-formed NetIds `compare` returns only `-1` or
`1` (never `0`); it is antisymmetric on pairs that are not `equals`,
transitive, and `equals(a,b)` holds exactly when `compare` returns `1`
in both directions (the tie outcome). -/
theorem C1_compare_strict_order {a b c : CBusNetId} (ha : WF a) (hb : WF b)
    (hc : WF c) :
    (CBusNetId.compare a b = -1 ∨ CBusNetId.compare a b = 1) ∧
    (CBusNetId.isEquals a b = false →
      CBusNetId.compare a b = -(CBusNetId.compare b a)) ∧
    (CBusNetId.compare a b = -1 → CBusNetId.compare b c = -1 →
      CBusNetId.compare a c = -1) ∧
    (CBusNetId.isEquals a b = true ↔
      (CBusNetId.compare a b = 1 ∧ CBusNetId.compare b a = 1)) := by
  refine ⟨compare_vals a b, ?_, ?_, ?_⟩
  · intro he
    simp only [CBusNetId.isEquals, Bool.and_eq_false_iff] at he
    by_cases hp : a.project = b.project
    · have hh : a.getHash ≠ b.getHash := by
        rcases he with he | he
        · exact absurd hp (by simpa using he)
        · simpa using he
      by_cases hu : a.isUnitId = b.isUnitId
      · rw [compare_of_proj_eq_rank_eq hp hu,
          compare_of_proj_eq_rank_eq hp.symm hu.symm]
        cases hl : strLt a.getHash b.getHash
        · have hl2 : strLt b.getHash a.getHash = true := by
            cases hx : strLt b.getHash a.getHash
            · exact absurd (strLt_eq_of_not_lt hl hx) hh
            · rfl
          simp [hl, hl2]
        · have hl2 : strLt b.getHash a.getHash = false := listLt_asymm hl
          simp [hl, hl2]
      · rw [compare_of_proj_eq_rank_ne hp hu,
          compare_of_proj_eq_rank_ne hp.symm (Ne.symm hu)]
        cases hau : a.isUnitId <;> cases hbu : b.isUnitId
        · exact absurd (hau.trans hbu.symm) hu
        · simp [hau, hbu]
        · simp [hau, hbu]
        · exact absurd (hau.trans hbu.symm) hu
    · rw [compare_of_proj_ne hp, compare_of_proj_ne (Ne.symm hp)]
      cases hl : strLt a.project b.project
      · have hl2 : strLt b.project a.project = true := by
          cases hx : strLt b.project a.project
          · exact absurd (strLt_eq_of_not_lt hl hx) hp
          · rfl
        simp [hl, hl2]
      · have hl2 : strLt b.project a.project = false := listLt_asymm hl
        simp [hl, hl2]
  · intro h1 h2
    rw [compare_neg_one_iff] at h1 h2 ⊢
    rcases h1 with h1 | ⟨hp1, h1⟩
    · rcases h2 with h2 | ⟨hp2, h2⟩
      · exact Or.inl (listLt_trans h1 h2)
      · refine Or.inl ?_
        unfold strLt at h1 ⊢
        rw [← hp2]
        exact h1
    · rcases h2 with h2 | ⟨hp2, h2⟩
      · refine Or.inl ?_
        unfold strLt at h2 ⊢
        rw [hp1]
        exact h2
      · refine Or.inr ⟨hp1.trans hp2, ?_⟩
        rcases h1 with ⟨hau, hbu⟩ | ⟨hu1, hh1⟩
        · rcases h2 with ⟨hbu2, hcu⟩ | ⟨hu2, hh2⟩
          · rw [hbu] at hbu2
            exact Bool.noConfusion hbu2
          · exact Or.inl ⟨hau, by rw [← hu2]; exact hbu⟩
        · rcases h2 with ⟨hbu2, hcu⟩ | ⟨hu2, hh2⟩
          · exact Or.inl ⟨by rw [hu1]; exact hbu2, hcu⟩
          · exact Or.inr ⟨hu1.trans hu2, listLt_trans hh1 hh2⟩
  · constructor
    · intro he
      have hpe : a.project = b.project := by
        simp only [CBusNetId.isEquals, Bool.and_eq_true, beq_iff_eq] at he
        exact he.1
      have hhe : a.getHash = b.getHash := by
        simp only [CBusNetId.isEquals, Bool.and_eq_true, beq_iff_eq] at he
        exact he.2
      have hue := isEquals_rank ha hb he
      have hha : strLt a.getHash b.getHash = false := by
        rw [hhe]; exact strLt_irrefl _
      have hhb : strLt b.getHash a.getHash = false := by
        rw [hhe]; exact strLt_irrefl _
      rw [compare_of_proj_eq_rank_eq hpe hue,
        compare_of_proj_eq_rank_eq hpe.symm hue.symm]
      simp [hha, hhb]
    · rintro ⟨h1, h2⟩
      by_cases hp : a.project = b.project
      · by_cases hu : a.isUnitId = b.isUnitId
        · rw [compare_of_proj_eq_rank_eq hp hu] at h1
          rw [compare_of_proj_eq_rank_eq hp.symm hu.symm] at h2
          cases hl1 : strLt a.getHash b.getHash
          · cases hl2 : strLt b.getHash a.getHash
            · have hh := strLt_eq_of_not_lt hl1 hl2
              simp [CBusNetId.isEquals, hp, hh]
            · rw [hl2] at h2
              norm_num at h2
          · rw [hl1] at h1
            norm_num at h1
        · rw [compare_of_proj_eq_rank_ne hp hu] at h1
          rw [compare_of_proj_eq_rank_ne hp.symm (Ne.symm hu)] at h2
          cases hau : a.isUnitId
          · rw [hau] at h1
            norm_num at h1
          · cases hbu : b.isUnitId
            · rw [hbu] at h2
              norm_num at h2
            · exact absurd (hau.trans hbu.symm) hu
      · rw [compare_of_proj_ne hp] at h1
        rw [compare_of_proj_ne (Ne.symm hp)] at h2
        cases hl1 : strLt a.project b.project
        · cases hl2 : strLt b.project a.project
          · exact absurd (strLt_eq_of_not_lt hl1 hl2) hp
          · rw [hl2] at h2
            norm_num at h2
        · rw [hl1] at h1
          norm_num at h1

/-- C1 witness. -/
theorem C1_compare_strict_order_witness :
    (CBusNetId.compare ⟨"AAA", some 1, none, none, none, none⟩
        ⟨"BBB", some 2, none, none, none, none⟩ = -1 ∨
     CBusNetId.compare ⟨"AAA", some 1, none, none, none, none⟩
        ⟨"BBB", some 2, none, none, none, none⟩ = 1) ∧
    (CBusNetId.isEquals ⟨"AAA", some 1, none, none, none, none⟩
        ⟨"BBB", some 2, none, none, none, none⟩ = false →
      CBusNetId.compare ⟨"AAA", some 1, none, none, none, none⟩
          ⟨"BBB", some 2, none, none, none, none⟩ =
        -(CBusNetId.compare ⟨"BBB", some 2, none, none, none, none⟩
          ⟨"AAA", some 1, none, none, none, none⟩)) ∧
    (CBusNetId.compare ⟨"AAA", some 1, none, none, none, none⟩
        ⟨"BBB", some 2, none, none, none, none⟩ = -1 →
      CBusNetId.compare ⟨"BBB", some 2, none, none, none, none⟩
        ⟨"CCC", some 3, none, none, none, none⟩ = -1 →
      CBusNetId.compare ⟨"AAA", some 1, none, none, none, none⟩
        ⟨"CCC", some 3, none, none, none, none⟩ = -1) ∧
    (CBusNetId.isEquals ⟨"AAA", some 1, none, none, none, none⟩
        ⟨"BBB", some 2, none, none, none, none⟩ = true ↔
      (CBusNetId.compare ⟨"AAA", some 1, none, none, none, none⟩
          ⟨"BBB", some 2, none, none, none, none⟩ = 1 ∧
       CBusNetId.compare ⟨"BBB", some 2, none, none, none, none⟩
          ⟨"AAA", some 1, none, none, none, none⟩ = 1)) :=
  C1_compare_strict_order (by decide) (by decide) (by decide)

/-! ### List head helpers for the matcher -/

theorem ne_nil_of_head? {α : Type} {l : List α} {x : α} (h : l.head? = some x) :
    l ≠ [] := by
  cases l with
  | nil => simp at h
  | cons a t => simp

theorem head?_flatMap {α β : Type} {l : List α} {f : α → List β} {x : α} {y : β}
    (h1 : l.head? = some x) (h2 : (f x).head? = some y) :
    (l.flatMap f).head? = some y := by
  cases l with
  | nil => simp at h1
  | cons a t =>
    simp only [List.head?_cons, Option.some.injEq] at h1
    subst h1
    rw [List.flatMap_cons, head?_append_left (ne_nil_of_head? h2)]
    exact h2

theorem head?_map {α β : Type} {l : List α} {x : α} (f : α → β)
    (h : l.head? = some x) : (l.map f).head? = some (f x) := by
  cases l with
  | nil => simp at h
  | cons a t =>
    simp only [List.head?_cons, Option.some.injEq] at h
    subst h
    rfl

/-! ### Splitting lemmas for the greedy character classes -/

/-- the next character (if any) is outside the class, so the greedy
matcher stops exactly at the boundary -/
def boundaryOk (p : Char → Bool) (rest : List Char) : Prop :=
  rest = [] ∨ ∃ c r', rest = c :: r' ∧ p c = false

theorem classPrefixes_boundary {p : Char → Bool} :
    ∀ {cs : List Char} {rest : List Char}, cs.all p = true → boundaryOk p rest →
    ∀ hi, cs.length ≤ hi →
    ∃ t, classPrefixes p hi (cs ++ rest) = (cs, rest) :: t := by
  intro cs
  induction cs with
  | nil =>
    intro rest _ hb hi _
    cases hi with
    | zero => exact ⟨[], rfl⟩
    | succ k =>
      rcases hb with hb | ⟨c, r', hb, hpc⟩
      · subst hb
        exact ⟨[], rfl⟩
      · subst hb
        simp only [List.nil_append, classPrefixes, hpc, Bool.false_eq_true, if_false]
        exact ⟨[], rfl⟩
  | cons c cs ih =>
    intro rest hall hb hi hlen
    cases hi with
    | zero => simp at hlen
    | succ k =>
      simp only [List.all_cons, Bool.and_eq_true] at hall
      obtain ⟨t, ht⟩ := ih hall.2 hb k (by simp at hlen; omega)
      simp only [List.cons_append, classPrefixes, hall.1, if_true, List.append_eq]
      rw [ht]
      exact ⟨(t.map fun pr => (c :: pr.1, pr.2)) ++ [([], c :: (cs ++ rest))], by simp⟩

theorem takeClass_head {p : Char → Bool} {lo hi : Nat} {cs rest : List Char}
    (hall : cs.all p = true) (hb : boundaryOk p rest)
    (hlen : cs.length ≤ hi) (hlo : lo ≤ cs.length) :
    (takeClass p lo hi (cs ++ rest)).head? = some (cs, rest) := by
  obtain ⟨t, ht⟩ := classPrefixes_boundary hall hb hi hlen
  unfold takeClass
  rw [ht, List.filter_cons]
  simp [hlo]

theorem classPrefixes_mem {p : Char → Bool} :
    ∀ {hi : Nat} {s pre r : List Char}, (pre, r) ∈ classPrefixes p hi s →
    s = pre ++ r ∧ pre.all p = true ∧ pre.length ≤ hi := by
  intro hi
  induction hi with
  | zero =>
    intro s pre r h
    simp only [classPrefixes, List.mem_singleton, Prod.mk.injEq] at h
    obtain ⟨h1, h2⟩ := h
    subst h1
    subst h2
    simp
  | succ k ih =>
    intro s pre r h
    cases s with
    | nil =>
      simp only [classPrefixes, List.mem_singleton, Prod.mk.injEq] at h
      obtain ⟨h1, h2⟩ := h
      subst h1
      subst h2
      simp
    | cons c rest =>
      simp only [classPrefixes] at h
      by_cases hpc : p c = true
      · rw [if_pos hpc] at h
        rcases List.mem_append.mp h with h | h
        · obtain ⟨⟨pre', r'⟩, hmem, heq⟩ := List.mem_map.mp h
          obtain ⟨hs, hall, hlen⟩ := ih hmem
          simp only [Prod.mk.injEq] at heq
          obtain ⟨h1, h2⟩ := heq
          subst h1
          subst h2
          refine ⟨by simp [hs], by simp [hpc, hall], by simp; omega⟩
        · simp only [List.mem_singleton, Prod.mk.injEq] at h
          obtain ⟨h1, h2⟩ := h
          subst h1
          subst h2
          simp
      · rw [if_neg hpc] at h
        simp only [List.mem_singleton, Prod.mk.injEq] at h
        obtain ⟨h1, h2⟩ := h
        subst h1
        subst h2
        simp

theorem classPrefixes_complete {p : Char → Bool} :
    ∀ {cs rest : List Char} {hi : Nat}, cs.all p = true → cs.length ≤ hi →
    (cs, rest) ∈ classPrefixes p hi (cs ++ rest) := by
  intro cs
  induction cs with
  | nil =>
    intro rest hi _ _
    cases hi with
    | zero => simp [classPrefixes]
    | succ k =>
      cases rest with
      | nil => simp [classPrefixes]
      | cons c r =>
        by_cases hpc : p c = true
        · simp only [List.nil_append, classPrefixes, hpc, if_true]
          exact List.mem_append_right _ (by simp)
        · simp only [List.nil_append, classPrefixes, hpc, Bool.false_eq_true, if_false]
          simp
  | cons c cs ih =>
    intro rest hi hall hlen
    cases hi with
    | zero => simp at hlen
    | succ k =>
      simp only [List.all_cons, Bool.and_eq_true] at hall
      simp only [List.cons_append, classPrefixes, hall.1, if_true]
      refine List.mem_append_left _ ?_
      exact List.mem_map.mpr ⟨(cs, rest), ih hall.2 (by simp at hlen; omega), rfl⟩

theorem takeClass_mem {p : Char → Bool} {lo hi : Nat} {s pre r : List Char}
    (h : (pre, r) ∈ takeClass p lo hi s) :
    s = pre ++ r ∧ pre.all p = true ∧ lo ≤ pre.length ∧ pre.length ≤ hi := by
  unfold takeClass at h
  obtain ⟨hmem, hlo⟩ := List.mem_filter.mp h
  obtain ⟨hs, hall, hlen⟩ := classPrefixes_mem hmem
  simp only [decide_eq_true_eq] at hlo
  exact ⟨hs, hall, hlo, hlen⟩

theorem takeClass_complete {p : Char → Bool} {lo hi : Nat} {cs rest : List Char}
    (hall : cs.all p = true) (hlo : lo ≤ cs.length) (hlen : cs.length ≤ hi) :
    (cs, rest) ∈ takeClass p lo hi (cs ++ rest) := by
  unfold takeClass
  exact List.mem_filter.mpr ⟨classPrefixes_complete hall hlen, by simp [hlo]⟩

/-! ### Facts about decimal renderings of bytes -/

set_option maxRecDepth 8000 in
theorem repr_facts : ∀ m : Nat, m < 256 →
    integerise (.str (Nat.repr m)) = some (m : Int) ∧
    (Nat.repr m).data.all isDigitCh = true ∧
    1 ≤ (Nat.repr m).data.length ∧ (Nat.repr m).data.length ≤ 3 ∧
    Nat.repr m ≠ "" ∧ Nat.repr m ≠ "p" := by decide

/-! ### Evaluating the matcher components -/

theorem boundary_slash {p : Char → Bool} {r : List Char} (h : p '/' = false) :
    boundaryOk p ('/' :: r) := Or.inr ⟨'/', r, rfl, h⟩

theorem boundary_nil {p : Char → Bool} : boundaryOk p [] := Or.inl rfl

theorem digitSeg_head {ds rest : List Char} (hall : ds.all isDigitCh = true)
    (h1 : 1 ≤ ds.length) (h3 : ds.length ≤ 3) (hb : boundaryOk isDigitCh rest) :
    (digitSeg (ds ++ rest)).head? = some (ds, rest) :=
  takeClass_head hall hb h3 h1

theorem projSeg_head {ps rest : List Char} (hall : ps.all isProjCh = true)
    (h1 : 1 ≤ ps.length) (h8 : ps.length ≤ 8) (hb : boundaryOk isProjCh rest) :
    (projSeg (ps ++ rest)).head? = some (ps, rest) :=
  takeClass_head hall hb h8 h1

theorem optPart2_slash (r : List Char) :
    optPart2 ('/' :: r) =
      ((digitSeg r).flatMap fun n =>
        (optPart3 n.2).map fun t => (some n.1, t.1, t.2.1, t.2.2)) ++
      [(none, none, none, '/' :: r)] := rfl

theorem optPart3_slash (r : List Char) :
    optPart3 ('/' :: r) =
      ((altP r).flatMap fun a => (optGroup4 a.2).map fun g => (some a.1, g.1, g.2)) ++
      [(none, none, '/' :: r)] := rfl

theorem optGroup4_slash (r : List Char) :
    optGroup4 ('/' :: r) =
      ((digitSeg r).map fun pr => (some pr.1, pr.2)) ++ [(none, '/' :: r)] := rfl

theorem tailCands_slash (r : List Char) :
    tailCands ('/' :: r) = optDigits r ++ optDigits ('/' :: r) := rfl

theorem matchCandidates_slash2 (r : List Char) :
    matchCandidates ('/' :: '/' :: r) =
      (projSeg r).flatMap fun pr =>
        (optPart2 pr.2).flatMap fun q =>
          (tailCands q.2.2.2).flatMap fun t =>
            if t.2 = [] then
              [⟨String.mk pr.1, (q.1).map String.mk, (q.2.1).map String.mk,
                (q.2.2.1).map String.mk, (t.1).map String.mk⟩]
            else [] := rfl

theorem altP_digit {d : Char} {r : List Char} (hd : isDigitCh d = true) :
    altP (d :: r) = digitSeg (d :: r) := by
  have hne : d ≠ 'p' := by
    intro h
    rw [h] at hd
    exact absurd hd (by decide)
  unfold altP
  split
  · rename_i heq
    injection heq with h1 h2
    exact absurd h1 hne
  · simp

theorem optDigits_head_digits {ds : List Char} (hall : ds.all isDigitCh = true)
    (h1 : 1 ≤ ds.length) (h3 : ds.length ≤ 3) :
    (optDigits ds).head? = some (some ds, []) := by
  unfold optDigits
  have hds := digitSeg_head hall h1 h3 (boundary_nil : boundaryOk isDigitCh [])
  rw [List.append_nil] at hds
  have hm := head?_map (fun pr => (some pr.1, pr.2)) hds
  rw [head?_append_left (ne_nil_of_head? hm)]
  exact hm

theorem tailCands_head_chan {ds : List Char} (hall : ds.all isDigitCh = true)
    (h1 : 1 ≤ ds.length) (h3 : ds.length ≤ 3) :
    (tailCands ('/' :: ds)).head? = some (some ds, []) := by
  rw [tailCands_slash]
  have h := optDigits_head_digits hall h1 h3
  rw [head?_append_left (ne_nil_of_head? h)]
  exact h

theorem tailCands_head_nil : (tailCands []).head? = some (none, []) := rfl

theorem optGroup4_head_digits {ds rest : List Char} (hall : ds.all isDigitCh = true)
    (h1 : 1 ≤ ds.length) (h3 : ds.length ≤ 3) (hb : boundaryOk isDigitCh rest) :
    (optGroup4 ('/' :: (ds ++ rest))).head? = some (some ds, rest) := by
  rw [optGroup4_slash]
  have h := head?_map (fun pr => (some pr.1, pr.2)) (digitSeg_head hall h1 h3 hb)
  rw [head?_append_left (ne_nil_of_head? h)]
  exact h

theorem optGroup4_head_nil : (optGroup4 []).head? = some (none, []) := rfl

theorem optPart3_head_nil : (optPart3 []).head? = some (none, none, []) := rfl

theorem optPart2_head_nil : (optPart2 []).head? = some (none, none, none, []) := rfl

theorem optPart3_head_app {as rest : List Char} {g? : Option (List Char)}
    {rest2 : List Char} (hall : as.all isDigitCh = true) (h1 : 1 ≤ as.length)
    (h3 : as.length ≤ 3) (hb : boundaryOk isDigitCh rest)
    (hg : (optGroup4 rest).head? = some (g?, rest2)) :
    (optPart3 ('/' :: (as ++ rest))).head? = some (some as, g?, rest2) := by
  rw [optPart3_slash]
  have hai : (altP (as ++ rest)).head? = some (as, rest) := by
    cases as with
    | nil => simp at h1
    | cons d ds =>
      have hd : isDigitCh d = true := by
        simp only [List.all_cons, Bool.and_eq_true] at hall
        exact hall.1
      rw [List.cons_append, altP_digit hd, ← List.cons_append]
      exact digitSeg_head hall h1 h3 hb
  have hin : ((altP (as ++ rest)).flatMap fun a =>
      (optGroup4 a.2).map fun g => (some a.1, g.1, g.2)).head? =
      some (some as, g?, rest2) := by
    refine head?_flatMap hai ?_
    show ((optGroup4 rest).map fun g => (some as, g.1, g.2)).head? =
      some (some as, g?, rest2)
    exact head?_map _ hg
  rw [head?_append_left (ne_nil_of_head? hin)]
  exact hin

theorem optPart3_head_unit {rest : List Char} {g? : Option (List Char)}
    {rest2 : List Char} (hg : (optGroup4 rest).head? = some (g?, rest2)) :
    (optPart3 ('/' :: 'p' :: rest)).head? = some (some ['p'], g?, rest2) := by
  rw [optPart3_slash]
  have hai : (altP ('p' :: rest)).head? = some (['p'], rest) := rfl
  have hin : ((altP ('p' :: rest)).flatMap fun a =>
      (optGroup4 a.2).map fun g => (some a.1, g.1, g.2)).head? =
      some (some ['p'], g?, rest2) := by
    refine head?_flatMap hai ?_
    show ((optGroup4 rest).map fun g => (some ['p'], g.1, g.2)).head? =
      some (some ['p'], g?, rest2)
    exact head?_map _ hg
  rw [head?_append_left (ne_nil_of_head? hin)]
  exact hin

theorem optPart2_head {nd rest : List Char}
    {a? g? : Option (List Char)} {rest2 : List Char}
    (hall : nd.all isDigitCh = true) (h1 : 1 ≤ nd.length) (h3 : nd.length ≤ 3)
    (hb : boundaryOk isDigitCh rest)
    (hp3 : (optPart3 rest).head? = some (a?, g?, rest2)) :
    (optPart2 ('/' :: (nd ++ rest))).head? = some (some nd, a?, g?, rest2) := by
  rw [optPart2_slash]
  have hnd := digitSeg_head hall h1 h3 hb
  have hin : ((digitSeg (nd ++ rest)).flatMap fun n =>
      (optPart3 n.2).map fun t => (some n.1, t.1, t.2.1, t.2.2)).head? =
      some (some nd, a?, g?, rest2) := by
    refine head?_flatMap hnd ?_
    show ((optPart3 rest).map fun t => (some nd, t.1, t.2.1, t.2.2)).head? =
      some (some nd, a?, g?, rest2)
    exact head?_map _ hp3
  rw [head?_append_left (ne_nil_of_head? hin)]
  exact hin

theorem matchCandidates_head {ps rest : List Char}
    {n? a? g? : Option (List Char)} {rest2 : List Char} {c? : Option (List Char)}
    (hall : ps.all isProjCh = true) (h1 : 1 ≤ ps.length) (h8 : ps.length ≤ 8)
    (hb : boundaryOk isProjCh rest)
    (hq : (optPart2 rest).head? = some (n?, a?, g?, rest2))
    (ht : (tailCands rest2).head? = some (c?, [])) :
    (matchCandidates ('/' :: '/' :: (ps ++ rest))).head? =
      some ⟨String.mk ps, n?.map String.mk, a?.map String.mk,
        g?.map String.mk, c?.map String.mk⟩ := by
  rw [matchCandidates_slash2]
  refine head?_flatMap (projSeg_head hall h1 h8 hb) ?_
  refine head?_flatMap hq ?_
  refine head?_flatMap ht ?_
  simp

/-! ### Matching the canonical string of each NetId shape -/

theorem mk_data (s : String) : String.mk s.data = s := by cases s; rfl

theorem netidMatch_proj {P : String} (hPall : P.data.all isProjCh = true)
    (h1 : 1 ≤ P.data.length) (h8 : P.data.length ≤ 8) :
    netidMatch ("//" ++ P) = some ⟨P, none, none, none, none⟩ := by
  unfold netidMatch
  have hd : ("//" ++ P).data = '/' :: '/' :: (P.data ++ []) := by simp
  rw [hd, matchCandidates_head hPall h1 h8 boundary_nil optPart2_head_nil
    tailCands_head_nil]
  simp [mk_data]

theorem netidMatch_network {P : String} {n : Nat} (hPall : P.data.all isProjCh = true)
    (h1 : 1 ≤ P.data.length) (h8 : P.data.length ≤ 8) (hn : n < 256) :
    netidMatch ("//" ++ P ++ "/" ++ Nat.repr n) =
      some ⟨P, some (Nat.repr n), none, none, none⟩ := by
  obtain ⟨-, hna, hn1, hn3, -, -⟩ := repr_facts n hn
  unfold netidMatch
  have hd : ("//" ++ P ++ "/" ++ Nat.repr n).data =
      '/' :: '/' :: (P.data ++ '/' :: (Nat.repr n).data) := by simp
  rw [hd]
  have hq := optPart2_head hna hn1 hn3 boundary_nil optPart3_head_nil
  rw [List.append_nil] at hq
  rw [matchCandidates_head hPall h1 h8 (boundary_slash (by decide)) hq
    tailCands_head_nil]
  simp [mk_data]

theorem netidMatch_app {P : String} {n a : Nat} (hPall : P.data.all isProjCh = true)
    (h1 : 1 ≤ P.data.length) (h8 : P.data.length ≤ 8) (hn : n < 256) (ha : a < 256) :
    netidMatch ("//" ++ P ++ "/" ++ Nat.repr n ++ "/" ++ Nat.repr a) =
      some ⟨P, some (Nat.repr n), some (Nat.repr a), none, none⟩ := by
  obtain ⟨-, hna, hn1, hn3, -, -⟩ := repr_facts n hn
  obtain ⟨-, haa, ha1, ha3, -, -⟩ := repr_facts a ha
  unfold netidMatch
  have hd : ("//" ++ P ++ "/" ++ Nat.repr n ++ "/" ++ Nat.repr a).data =
      '/' :: '/' :: (P.data ++ '/' :: ((Nat.repr n).data ++ '/' :: (Nat.repr a).data)) := by
    simp
  rw [hd]
  have hp3 := optPart3_head_app haa ha1 ha3 boundary_nil optGroup4_head_nil
  rw [List.append_nil] at hp3
  have hq := optPart2_head hna hn1 hn3 (boundary_slash (by decide)) hp3
  rw [matchCandidates_head hPall h1 h8 (boundary_slash (by decide)) hq
    tailCands_head_nil]
  simp [mk_data]

theorem netidMatch_group {P : String} {n a g : Nat} (hPall : P.data.all isProjCh = true)
    (h1 : 1 ≤ P.data.length) (h8 : P.data.length ≤ 8) (hn : n < 256) (ha : a < 256)
    (hg : g < 256) :
    netidMatch ("//" ++ P ++ "/" ++ Nat.repr n ++ "/" ++ Nat.repr a ++ "/" ++ Nat.repr g) =
      some ⟨P, some (Nat.repr n), some (Nat.repr a), some (Nat.repr g), none⟩ := by
  obtain ⟨-, hna, hn1, hn3, -, -⟩ := repr_facts n hn
  obtain ⟨-, haa, ha1, ha3, -, -⟩ := repr_facts a ha
  obtain ⟨-, hga, hg1, hg3, -, -⟩ := repr_facts g hg
  unfold netidMatch
  have hd : ("//" ++ P ++ "/" ++ Nat.repr n ++ "/" ++ Nat.repr a ++ "/" ++ Nat.repr g).data =
      '/' :: '/' :: (P.data ++ '/' :: ((Nat.repr n).data ++ '/' ::
        ((Nat.repr a).data ++ '/' :: (Nat.repr g).data))) := by
    simp
  rw [hd]
  have hg4 := optGroup4_head_digits hga hg1 hg3 (boundary_nil (p := isDigitCh))
  rw [List.append_nil] at hg4
  have hp3 := optPart3_head_app haa ha1 ha3 (boundary_slash (by decide)) hg4
  have hq := optPart2_head hna hn1 hn3 (boundary_slash (by decide)) hp3
  rw [matchCandidates_head hPall h1 h8 (boundary_slash (by decide)) hq
    tailCands_head_nil]
  simp [mk_data]

theorem netidMatch_group_chan {P : String} {n a g c : Nat}
    (hPall : P.data.all isProjCh = true) (h1 : 1 ≤ P.data.length)
    (h8 : P.data.length ≤ 8) (hn : n < 256) (ha : a < 256) (hg : g < 256)
    (hc : c < 256) :
    netidMatch ("//" ++ P ++ "/" ++ Nat.repr n ++ "/" ++ Nat.repr a ++ "/" ++
        Nat.repr g ++ "/" ++ Nat.repr c) =
      some ⟨P, some (Nat.repr n), some (Nat.repr a), some (Nat.repr g),
        some (Nat.repr c)⟩ := by
  obtain ⟨-, hna, hn1, hn3, -, -⟩ := repr_facts n hn
  obtain ⟨-, haa, ha1, ha3, -, -⟩ := repr_facts a ha
  obtain ⟨-, hga, hg1, hg3, -, -⟩ := repr_facts g hg
  obtain ⟨-, hca, hc1, hc3, -, -⟩ := repr_facts c hc
  unfold netidMatch
  have hd : ("//" ++ P ++ "/" ++ Nat.repr n ++ "/" ++ Nat.repr a ++ "/" ++
      Nat.repr g ++ "/" ++ Nat.repr c).data =
      '/' :: '/' :: (P.data ++ '/' :: ((Nat.repr n).data ++ '/' ::
        ((Nat.repr a).data ++ '/' :: ((Nat.repr g).data ++ '/' ::
          (Nat.repr c).data)))) := by
    simp
  rw [hd]
  have hg4 := optGroup4_head_digits hga hg1 hg3
    (boundary_slash (by decide) :
      boundaryOk isDigitCh ('/' :: (Nat.repr c).data))
  have hp3 := optPart3_head_app haa ha1 ha3 (boundary_slash (by decide)) hg4
  have hq := optPart2_head hna hn1 hn3 (boundary_slash (by decide)) hp3
  rw [matchCandidates_head hPall h1 h8 (boundary_slash (by decide)) hq
    (tailCands_head_chan hca hc1 hc3)]
  simp [mk_data]

theorem netidMatch_unit {P : String} {n u : Nat} (hPall : P.data.all isProjCh = true)
    (h1 : 1 ≤ P.data.length) (h8 : P.data.length ≤ 8) (hn : n < 256) (hu : u < 256) :
    netidMatch ("//" ++ P ++ "/" ++ Nat.repr n ++ "/p/" ++ Nat.repr u) =
      some ⟨P, some (Nat.repr n), some "p", some (Nat.repr u), none⟩ := by
  obtain ⟨-, hna, hn1, hn3, -, -⟩ := repr_facts n hn
  obtain ⟨-, hua, hu1, hu3, -, -⟩ := repr_facts u hu
  unfold netidMatch
  have hd : ("//" ++ P ++ "/" ++ Nat.repr n ++ "/p/" ++ Nat.repr u).data =
      '/' :: '/' :: (P.data ++ '/' :: ((Nat.repr n).data ++ '/' :: 'p' :: '/' ::
        (Nat.repr u).data)) := by
    simp
  rw [hd]
  have hg4 := optGroup4_head_digits hua hu1 hu3 (boundary_nil (p := isDigitCh))
  rw [List.append_nil] at hg4
  have hp3 := optPart3_head_unit hg4
  have hq := optPart2_head hna hn1 hn3 (boundary_slash (by decide)) hp3
  rw [matchCandidates_head hPall h1 h8 (boundary_slash (by decide)) hq
    tailCands_head_nil]
  simp [mk_data]

/-! ### Evaluating the constructor on parsed captures -/

theorem validatedNumber_repr {m : Nat} (hm : m < 256) (nm : String) :
    validatedNumber (.str (Nat.repr m)) nm = .ok (some m) := by
  obtain ⟨hi, -, -, -, -, -⟩ := repr_facts m hm
  unfold validatedNumber
  simp only [hi]
  rw [if_neg (by omega)]
  simp

theorem validatedChannelNumber_repr {c : Nat} (h1 : 1 ≤ c) (h7 : c ≤ 7) :
    validatedChannelNumber (.str (Nat.repr c)) = .ok (some c) := by
  obtain ⟨hi, -, -, -, -, -⟩ := repr_facts c (by omega)
  unfold validatedChannelNumber
  simp only [hi]
  rw [if_neg (by omega)]
  simp

theorem truthy_repr {m : Nat} (hm : m < 256) : truthy (.str (Nat.repr m)) = true := by
  obtain ⟨-, -, -, -, hne, -⟩ := repr_facts m hm
  simp [truthy, hne]

theorem str_repr_ne_p {m : Nat} (hm : m < 256) :
    JSVal.str (Nat.repr m) ≠ JSVal.str "p" := by
  obtain ⟨-, -, -, -, -, hne⟩ := repr_facts m hm
  simp [hne]

theorem construct_eval_proj {P : String} (hv : validatedProjectName P = .ok P) :
    construct (some P) .undef .undef .undef .undef =
      .ok ⟨P, none, none, none, none, none⟩ := by
  simp only [construct, hv]
  rfl

theorem construct_eval_network {P : String} {n : Nat}
    (hv : validatedProjectName P = .ok P) (hn : n < 256) :
    construct (some P) (.str (Nat.repr n)) .undef .undef .undef =
      .ok ⟨P, some n, none, none, none, none⟩ := by
  simp only [construct, hv, validatedNumber_repr hn]
  rfl

theorem construct_eval_app {P : String} {n a : Nat}
    (hv : validatedProjectName P = .ok P) (hn : n < 256) (ha : a < 256) :
    construct (some P) (.str (Nat.repr n)) (.str (Nat.repr a)) .undef .undef =
      .ok ⟨P, some n, some a, none, none, none⟩ := by
  simp only [construct, hv, validatedNumber_repr hn]
  simp only [buildBranch, if_neg (str_repr_ne_p ha), validatedNumber_repr ha]
  rfl

theorem construct_eval_group {P : String} {n a g : Nat}
    (hv : validatedProjectName P = .ok P) (hn : n < 256) (ha : a < 256) (hg : g < 256) :
    construct (some P) (.str (Nat.repr n)) (.str (Nat.repr a)) (.str (Nat.repr g)) .undef =
      .ok ⟨P, some n, some a, some g, none, none⟩ := by
  simp only [construct, hv, validatedNumber_repr hn]
  simp only [buildBranch, if_neg (str_repr_ne_p ha), validatedNumber_repr ha,
    validatedNumber_repr hg]
  rfl

theorem construct_eval_group_chan {P : String} {n a g c : Nat}
    (hv : validatedProjectName P = .ok P) (hn : n < 256) (ha : a < 256) (hg : g < 256)
    (hc1 : 1 ≤ c) (hc7 : c ≤ 7) :
    construct (some P) (.str (Nat.repr n)) (.str (Nat.repr a)) (.str (Nat.repr g))
        (.str (Nat.repr c)) =
      .ok ⟨P, some n, some a, some g, none, some c⟩ := by
  simp only [construct, hv, truthy_repr (show c < 256 by omega), if_pos rfl,
    validatedChannelNumber_repr hc1 hc7, validatedNumber_repr hn]
  simp only [buildBranch, if_neg (str_repr_ne_p ha), validatedNumber_repr ha,
    validatedNumber_repr hg]
  rfl

theorem construct_eval_unit {P : String} {n u : Nat}
    (hv : validatedProjectName P = .ok P) (hn : n < 256) (hu : u < 256) :
    construct (some P) (.str (Nat.repr n)) (.str "p") (.str (Nat.repr u)) .undef =
      .ok ⟨P, some n, none, none, some u, none⟩ := by
  simp only [construct, hv, validatedNumber_repr hn]
  simp only [buildBranch, if_pos rfl, validatedNumber_repr hu]
  rfl

/-! ### The hash ignores the channel -/

theorem getHash_channel_irrel (P : String) (n a g u c1 c2 : Option Nat) :
    CBusNetId.getHash ⟨P, n, a, g, u, c1⟩ = CBusNetId.getHash ⟨P, n, a, g, u, c2⟩ := rfl

theorem isEquals_drop_channel (P : String) (n a g u c1 c2 : Option Nat) :
    CBusNetId.isEquals ⟨P, n, a, g, u, c1⟩ ⟨P, n, a, g, u, c2⟩ = true := by
  unfold CBusNetId.isEquals
  rw [getHash_channel_irrel P n a g u c1 c2]
  simp

/-! ### Claim C2 (amended): round-trip -/

/-- C2 (amended): for every constructed NetId except a Unit-kind with a
truthy channel, `parse(toString(x))` succeeds and the result `equals` x.
(A Unit-kind with a truthy channel stringifies through the channel
template with interpolated `undefined` fields and does not parse.) -/
theorem C2_roundtrip {p? : Option String} {np p3 p4 p5 : JSVal} {x : CBusNetId}
    (h : construct p? np p3 p4 p5 = .ok x)
    (hnc : ¬(x.unitAddress.isSome = true ∧ x.truthyChannel = true)) :
    ∃ y, CBusNetId.parse (CBusNetId.toString x) = .ok y ∧
      CBusNetId.isEquals y x = true := by
  have hx := construct_ok_WF h
  clear h
  obtain ⟨px, nx, ax, gx, ux, cx⟩ := x
  obtain ⟨hproj, hnet, happ, hgrp, hua, hch, hexcl, hga, han, hun⟩ := hx
  obtain ⟨⟨hP1, hP8, hPall⟩, -⟩ := validatedProjectName_ok_format hproj
  cases ux with
  | some u =>
    have hax : ax = none := (hexcl (by simp)).1
    have hgx : gx = none := (hexcl (by simp)).2
    subst hax
    subst hgx
    obtain ⟨nv, hnx⟩ := Option.isSome_iff_exists.mp (hun (by simp))
    subst hnx
    have hnv : nv ≤ 255 := by simpa [numOk] using hnet
    have huv : u ≤ 255 := by simpa [numOk] using hua
    have htch : CBusNetId.truthyChannel ⟨px, some nv, none, none, some u, cx⟩ = false := by
      by_contra hb
      exact hnc ⟨by simp, by simpa using hb⟩
    have hts : CBusNetId.toString ⟨px, some nv, none, none, some u, cx⟩ =
        "//" ++ px ++ "/" ++ Nat.repr nv ++ "/p/" ++ Nat.repr u := by
      simp [CBusNetId.toString, CBusNetId.isProjectId, CBusNetId.isNetworkId,
        CBusNetId.isApplicationId, CBusNetId.isGroupId, CBusNetId.isUnitId, htch, jsShow]
    rw [hts]
    unfold CBusNetId.parse
    rw [netidMatch_unit hPall hP1 hP8 (by omega) (by omega)]
    exact ⟨⟨px, some nv, none, none, some u, none⟩,
      construct_eval_unit hproj (by omega) (by omega),
      isEquals_drop_channel px (some nv) none none (some u) none cx⟩
  | none =>
    cases gx with
    | some g =>
      obtain ⟨a, hax⟩ := Option.isSome_iff_exists.mp (hga (by simp))
      subst hax
      obtain ⟨nv, hnx⟩ := Option.isSome_iff_exists.mp (han (by simp))
      subst hnx
      have hnv : nv ≤ 255 := by simpa [numOk] using hnet
      have hav : a ≤ 255 := by simpa [numOk] using happ
      have hgv : g ≤ 255 := by simpa [numOk] using hgrp
      by_cases htch : CBusNetId.truthyChannel ⟨px, some nv, some a, some g, none, cx⟩ = true
      · obtain ⟨c, hcx⟩ : ∃ c, cx = some c := by
          cases cx with
          | none => simp [CBusNetId.truthyChannel] at htch
          | some c => exact ⟨c, rfl⟩
        subst hcx
        have hc0 : c ≠ 0 := by simpa [CBusNetId.truthyChannel] using htch
        have hc17 : 1 ≤ c ∧ c ≤ 7 := by
          rcases hch with h0 | h17
          · exact absurd (by simpa using h0) hc0
          · exact ⟨by simpa using h17.1, by simpa using h17.2⟩
        have hts : CBusNetId.toString ⟨px, some nv, some a, some g, none, some c⟩ =
            "//" ++ px ++ "/" ++ Nat.repr nv ++ "/" ++ Nat.repr a ++ "/" ++
              Nat.repr g ++ "/" ++ Nat.repr c := by
          simp [CBusNetId.toString, CBusNetId.isProjectId, CBusNetId.isNetworkId,
            CBusNetId.isApplicationId, CBusNetId.isGroupId, CBusNetId.isUnitId,
            htch, jsShow]
        rw [hts]
        unfold CBusNetId.parse
        rw [netidMatch_group_chan hPall hP1 hP8 (by omega) (by omega) (by omega)
          (by omega)]
        exact ⟨⟨px, some nv, some a, some g, none, some c⟩,
          construct_eval_group_chan hproj (by omega) (by omega) (by omega)
            hc17.1 hc17.2,
          isEquals_drop_channel px (some nv) (some a) (some g) none (some c) (some c)⟩
      · have htch' : CBusNetId.truthyChannel ⟨px, some nv, some a, some g, none, cx⟩ = false := by
          cases hb : CBusNetId.truthyChannel ⟨px, some nv, some a, some g, none, cx⟩
          · rfl
          · exact absurd hb htch
        have hts : CBusNetId.toString ⟨px, some nv, some a, some g, none, cx⟩ =
            "//" ++ px ++ "/" ++ Nat.repr nv ++ "/" ++ Nat.repr a ++ "/" ++
              Nat.repr g := by
          simp [CBusNetId.toString, CBusNetId.isProjectId, CBusNetId.isNetworkId,
            CBusNetId.isApplicationId, CBusNetId.isGroupId, CBusNetId.isUnitId,
            htch', jsShow]
        rw [hts]
        unfold CBusNetId.parse
        rw [netidMatch_group hPall hP1 hP8 (by omega) (by omega) (by omega)]
        exact ⟨⟨px, some nv, some a, some g, none, none⟩,
          construct_eval_group hproj (by omega) (by omega) (by omega),
          isEquals_drop_channel px (some nv) (some a) (some g) none none cx⟩
    | none =>
      cases ax with
      | some a =>
        obtain ⟨nv, hnx⟩ := Option.isSome_iff_exists.mp (han (by simp))
        subst hnx
        have hnv : nv ≤ 255 := by simpa [numOk] using hnet
        have hav : a ≤ 255 := by simpa [numOk] using happ
        have hts : CBusNetId.toString ⟨px, some nv, some a, none, none, cx⟩ =
            "//" ++ px ++ "/" ++ Nat.repr nv ++ "/" ++ Nat.repr a := by
          simp [CBusNetId.toString, CBusNetId.isProjectId, CBusNetId.isNetworkId,
            CBusNetId.isApplicationId, jsShow]
        rw [hts]
        unfold CBusNetId.parse
        rw [netidMatch_app hPall hP1 hP8 (by omega) (by omega)]
        exact ⟨⟨px, some nv, some a, none, none, none⟩,
          construct_eval_app hproj (by omega) (by omega),
          isEquals_drop_channel px (some nv) (some a) none none none cx⟩
      | none =>
        cases nx with
        | some nv =>
          have hnv : nv ≤ 255 := by simpa [numOk] using hnet
          have hts : CBusNetId.toString ⟨px, some nv, none, none, none, cx⟩ =
              "//" ++ px ++ "/" ++ Nat.repr nv := by
            simp [CBusNetId.toString, CBusNetId.isProjectId, CBusNetId.isNetworkId,
              jsShow]
          rw [hts]
          unfold CBusNetId.parse
          rw [netidMatch_network hPall hP1 hP8 (by omega)]
          exact ⟨⟨px, some nv, none, none, none, none⟩,
            construct_eval_network hproj (by omega),
            isEquals_drop_channel px (some nv) none none none none cx⟩
        | none =>
          have hts : CBusNetId.toString ⟨px, none, none, none, none, cx⟩ =
              "//" ++ px := by
            simp [CBusNetId.toString, CBusNetId.isProjectId]
          rw [hts]
          unfold CBusNetId.parse
          rw [netidMatch_proj hPall hP1 hP8]
          exact ⟨⟨px, none, none, none, none, none⟩,
            construct_eval_proj hproj,
            isEquals_drop_channel px none none none none none cx⟩

/-- C2 witness. -/
theorem C2_roundtrip_witness :
    ∃ y, CBusNetId.parse (CBusNetId.toString
        ⟨"SHAC", some 254, some 56, some 191, none, some 5⟩) = .ok y ∧
      CBusNetId.isEquals y ⟨"SHAC", some 254, some 56, some 191, none, some 5⟩ = true :=
  C2_roundtrip
    (show construct (some "SHAC") (.num 254) (.num 56) (.num 191) (.num 5) =
      .ok ⟨"SHAC", some 254, some 56, some 191, none, some 5⟩ by decide)
    (by decide)

/-! ### Non-matching heads of the matcher components -/

theorem optGroup4_cons_nonslash {c : Char} {r : List Char} (h : c ≠ '/') :
    optGroup4 (c :: r) = [(none, c :: r)] := by
  unfold optGroup4
  split
  · rename_i heq
    injection heq with h1 _
    exact absurd h1 h
  · simp

theorem optPart3_cons_nonslash {c : Char} {r : List Char} (h : c ≠ '/') :
    optPart3 (c :: r) = [(none, none, c :: r)] := by
  unfold optPart3
  split
  · rename_i heq
    injection heq with h1 _
    exact absurd h1 h
  · simp

theorem optPart2_cons_nonslash {c : Char} {r : List Char} (h : c ≠ '/') :
    optPart2 (c :: r) = [(none, none, none, c :: r)] := by
  unfold optPart2
  split
  · rename_i heq
    injection heq with h1 _
    exact absurd h1 h
  · simp

theorem tailCands_cons_nonslash {c : Char} {r : List Char} (h : c ≠ '/') :
    tailCands (c :: r) = optDigits (c :: r) := by
  unfold tailCands
  split
  · rename_i heq
    injection heq with h1 _
    exact absurd h1 h
  · simp

theorem altP_cons_nonp {c : Char} {r : List Char} (h : c ≠ 'p') :
    altP (c :: r) = digitSeg (c :: r) := by
  unfold altP
  split
  · rename_i heq
    injection heq with h1 _
    exact absurd h1 h
  · simp

/-! ### Soundness: every candidate is a decomposition -/

theorem optDigits_mem {s : List Char} {c? : Option (List Char)} {rest : List Char}
    (h : (c?, rest) ∈ optDigits s) :
    (c? = none ∧ rest = s) ∨
    (∃ d, c? = some d ∧ s = d ++ rest ∧ digitSegOk (some d)) := by
  unfold optDigits at h
  rcases List.mem_append.mp h with h | h
  · obtain ⟨⟨d, r2⟩, hmem, heq⟩ := List.mem_map.mp h
    obtain ⟨hs, hall, hlo, hhi⟩ := takeClass_mem hmem
    simp only [Prod.mk.injEq] at heq
    exact Or.inr ⟨d, heq.1.symm, by rw [heq.2] at hs; exact hs, ⟨hlo, hhi, hall⟩⟩
  · simp only [List.mem_singleton, Prod.mk.injEq] at h
    exact Or.inl ⟨h.1, h.2⟩

theorem tailCands_mem {s : List Char} {c? : Option (List Char)} {rest : List Char}
    (h : (c?, rest) ∈ tailCands s) :
    ∃ sl : Bool, s = (if sl then ['/'] else []) ++ c?.getD [] ++ rest ∧
      digitSegOk c? := by
  cases s with
  | nil =>
    rcases optDigits_mem (show (c?, rest) ∈ optDigits [] from h) with ⟨h1, h2⟩ |
      ⟨d, h1, h2, h3⟩
    · subst h1
      subst h2
      exact ⟨false, by simp, by simp [digitSegOk]⟩
    · subst h1
      exact ⟨false, by simp [h2], h3⟩
  | cons c r =>
    by_cases hc : c = '/'
    · subst hc
      rw [tailCands_slash] at h
      rcases List.mem_append.mp h with h | h
      · rcases optDigits_mem h with ⟨h1, h2⟩ | ⟨d, h1, h2, h3⟩
        · subst h1
          subst h2
          exact ⟨true, by simp, by simp [digitSegOk]⟩
        · subst h1
          exact ⟨true, by simp [h2], h3⟩
      · rcases optDigits_mem h with ⟨h1, h2⟩ | ⟨d, h1, h2, h3⟩
        · subst h1
          subst h2
          exact ⟨false, by simp, by simp [digitSegOk]⟩
        · subst h1
          exact ⟨false, by simp [h2], h3⟩
    · rw [tailCands_cons_nonslash hc] at h
      rcases optDigits_mem h with ⟨h1, h2⟩ | ⟨d, h1, h2, h3⟩
      · subst h1
        subst h2
        exact ⟨false, by simp, by simp [digitSegOk]⟩
      · subst h1
        exact ⟨false, by simp [h2], h3⟩

theorem optGroup4_mem {s : List Char} {g? : Option (List Char)} {rest : List Char}
    (h : (g?, rest) ∈ optGroup4 s) :
    s = segStr g? ++ rest ∧ digitSegOk g? := by
  cases s with
  | nil =>
    simp only [show optGroup4 [] = [(none, [])] from rfl, List.mem_singleton,
      Prod.mk.injEq] at h
    obtain ⟨h1, h2⟩ := h
    subst h1
    subst h2
    exact ⟨rfl, by simp [digitSegOk]⟩
  | cons c r =>
    by_cases hc : c = '/'
    · subst hc
      rw [optGroup4_slash] at h
      rcases List.mem_append.mp h with h | h
      · obtain ⟨⟨d, r2⟩, hmem, heq⟩ := List.mem_map.mp h
        obtain ⟨hs, hall, hlo, hhi⟩ := takeClass_mem hmem
        simp only [Prod.mk.injEq] at heq
        obtain ⟨h1, h2⟩ := heq
        subst h1
        subst h2
        exact ⟨by simp [segStr, hs], ⟨hlo, hhi, hall⟩⟩
      · simp only [List.mem_singleton, Prod.mk.injEq] at h
        obtain ⟨h1, h2⟩ := h
        subst h1
        subst h2
        exact ⟨rfl, by simp [digitSegOk]⟩
    · rw [optGroup4_cons_nonslash hc] at h
      simp only [List.mem_singleton, Prod.mk.injEq] at h
      obtain ⟨h1, h2⟩ := h
      subst h1
      subst h2
      exact ⟨rfl, by simp [digitSegOk]⟩

theorem altP_mem {s : List Char} {a rest : List Char} (h : (a, rest) ∈ altP s) :
    s = a ++ rest ∧ appSegOk (some a) := by
  cases s with
  | nil =>
    obtain ⟨hs, hall, hlo, hhi⟩ := takeClass_mem (show (a, rest) ∈ digitSeg [] from h)
    exact ⟨hs, Or.inr ⟨hlo, hhi, hall⟩⟩
  | cons c r =>
    by_cases hc : c = 'p'
    · subst hc
      rcases List.mem_append.mp h with h | h
      · simp only [List.mem_singleton, Prod.mk.injEq] at h
        obtain ⟨h1, h2⟩ := h
        subst h1
        subst h2
        exact ⟨rfl, Or.inl rfl⟩
      · obtain ⟨hs, hall, hlo, hhi⟩ := takeClass_mem h
        exact ⟨hs, Or.inr ⟨hlo, hhi, hall⟩⟩
    · rw [altP_cons_nonp hc] at h
      obtain ⟨hs, hall, hlo, hhi⟩ := takeClass_mem h
      exact ⟨hs, Or.inr ⟨hlo, hhi, hall⟩⟩

theorem optPart3_mem {s : List Char} {a? g? : Option (List Char)} {rest : List Char}
    (h : (a?, g?, rest) ∈ optPart3 s) :
    s = segStr a? ++ segStr g? ++ rest ∧ appSegOk a? ∧ digitSegOk g? ∧
      (a? = none → g? = none ∧ rest = s) := by
  cases s with
  | nil =>
    simp only [show optPart3 [] = [(none, none, [])] from rfl, List.mem_singleton,
      Prod.mk.injEq] at h
    obtain ⟨h1, h2, h3⟩ := h
    subst h1
    subst h2
    subst h3
    exact ⟨rfl, by simp [appSegOk], by simp [digitSegOk], fun _ => ⟨rfl, rfl⟩⟩
  | cons c r =>
    by_cases hc : c = '/'
    · subst hc
      rw [optPart3_slash] at h
      rcases List.mem_append.mp h with h | h
      · obtain ⟨⟨a, r2⟩, hmemA, h⟩ := List.mem_flatMap.mp h
        obtain ⟨⟨g, r3⟩, hmemG, heq⟩ := List.mem_map.mp h
        simp only [Prod.mk.injEq] at heq
        obtain ⟨h1, h2, h3⟩ := heq
        subst h1
        subst h2
        subst h3
        obtain ⟨hsA, hokA⟩ := altP_mem hmemA
        obtain ⟨hsG, hokG⟩ := optGroup4_mem hmemG
        refine ⟨?_, hokA, hokG, by simp⟩
        have hsG2 : r2 = segStr g ++ r3 := hsG
        have hA : segStr (some a) = '/' :: a := rfl
        simp [hA, hsA, hsG2, List.append_assoc]
      · simp only [List.mem_singleton, Prod.mk.injEq] at h
        obtain ⟨h1, h2, h3⟩ := h
        subst h1
        subst h2
        subst h3
        exact ⟨rfl, by simp [appSegOk], by simp [digitSegOk], fun _ => ⟨rfl, rfl⟩⟩
    · rw [optPart3_cons_nonslash hc] at h
      simp only [List.mem_singleton, Prod.mk.injEq] at h
      obtain ⟨h1, h2, h3⟩ := h
      subst h1
      subst h2
      subst h3
      exact ⟨rfl, by simp [appSegOk], by simp [digitSegOk], fun _ => ⟨rfl, rfl⟩⟩

theorem optPart2_mem {s : List Char} {n? a? g? : Option (List Char)} {rest : List Char}
    (h : (n?, a?, g?, rest) ∈ optPart2 s) :
    s = segStr n? ++ segStr a? ++ segStr g? ++ rest ∧ digitSegOk n? ∧
      appSegOk a? ∧ digitSegOk g? ∧
      (n? = none → a? = none ∧ g? = none) ∧ (a? = none → g? = none) := by
  cases s with
  | nil =>
    simp only [show optPart2 [] = [(none, none, none, [])] from rfl,
      List.mem_singleton, Prod.mk.injEq] at h
    obtain ⟨h1, h2, h3, h4⟩ := h
    subst h1
    subst h2
    subst h3
    subst h4
    exact ⟨rfl, by simp [digitSegOk], by simp [appSegOk], by simp [digitSegOk],
      fun _ => ⟨rfl, rfl⟩, fun _ => rfl⟩
  | cons c r =>
    by_cases hc : c = '/'
    · subst hc
      rw [optPart2_slash] at h
      rcases List.mem_append.mp h with h | h
      · obtain ⟨⟨nd, r2⟩, hmemN, h⟩ := List.mem_flatMap.mp h
        obtain ⟨⟨a?2, g?2, r3⟩, hmemQ, heq⟩ := List.mem_map.mp h
        simp only [Prod.mk.injEq] at heq
        obtain ⟨h1, h2, h3, h4⟩ := heq
        subst h1
        subst h2
        subst h3
        subst h4
        obtain ⟨hsN, hallN, hloN, hhiN⟩ := takeClass_mem hmemN
        obtain ⟨hsQ, hokA, hokG, _⟩ := optPart3_mem hmemQ
        refine ⟨?_, ⟨hloN, hhiN, hallN⟩, hokA, hokG, by simp, ?_⟩
        · have hsQ2 : r2 = segStr a?2 ++ segStr g?2 ++ r3 := hsQ
          have hN : segStr (some nd) = '/' :: nd := rfl
          simp [hN, hsN, hsQ2, List.append_assoc]
        · intro ha
          obtain ⟨hsQ2, -, -, hnone⟩ := optPart3_mem hmemQ
          exact (hnone ha).1
      · simp only [List.mem_singleton, Prod.mk.injEq] at h
        obtain ⟨h1, h2, h3, h4⟩ := h
        subst h1
        subst h2
        subst h3
        subst h4
        exact ⟨rfl, by simp [digitSegOk], by simp [appSegOk], by simp [digitSegOk],
          fun _ => ⟨rfl, rfl⟩, fun _ => rfl⟩
    · rw [optPart2_cons_nonslash hc] at h
      simp only [List.mem_singleton, Prod.mk.injEq] at h
      obtain ⟨h1, h2, h3, h4⟩ := h
      subst h1
      subst h2
      subst h3
      subst h4
      exact ⟨rfl, by simp [digitSegOk], by simp [appSegOk], by simp [digitSegOk],
        fun _ => ⟨rfl, rfl⟩, fun _ => rfl⟩

/-- Every complete match of the compiled pattern exhibits a grammar
decomposition of the subject. -/
theorem matchCandidates_sound {l : List Char} {caps : RawCaptures}
    (h : caps ∈ matchCandidates l) : NetIdGrammar l := by
  have hshape : ∃ r, l = '/' :: '/' :: r := by
    unfold matchCandidates at h
    split at h
    · rename_i r
      exact ⟨r, rfl⟩
    · simp at h
  obtain ⟨r, rfl⟩ := hshape
  rw [matchCandidates_slash2] at h
  obtain ⟨⟨ps, rest1⟩, hmemP, h⟩ := List.mem_flatMap.mp h
  obtain ⟨⟨n?, a?, g?, rest2⟩, hmemQ, h⟩ := List.mem_flatMap.mp h
  obtain ⟨⟨c?, rest3⟩, hmemT, h⟩ := List.mem_flatMap.mp h
  have h2 : caps ∈ if rest3 = [] then
      [(⟨String.mk ps, n?.map String.mk, a?.map String.mk, g?.map String.mk,
        c?.map String.mk⟩ : RawCaptures)] else [] := h
  have hr3 : rest3 = [] := by
    by_contra hne
    rw [if_neg hne] at h2
    simp at h2
  obtain ⟨hsP, hallP, hloP, hhiP⟩ := takeClass_mem hmemP
  obtain ⟨hsQ, hokN, hokA, hokG, h5, h6⟩ := optPart2_mem hmemQ
  obtain ⟨sl, hsT, hokC⟩ := tailCands_mem hmemT
  have hsQ2 : rest1 = segStr n? ++ segStr a? ++ segStr g? ++ rest2 := hsQ
  have hsT2 : rest2 = (if sl then ['/'] else []) ++ c?.getD [] ++ rest3 := hsT
  refine ⟨ps, n?, a?, g?, sl, c?, hloP, hhiP, hallP, hokN, hokA, hokG, hokC,
    ?_, ?_, ?_⟩
  · intro ha
    cases hn : n? with
    | none =>
      obtain ⟨h7, -⟩ := h5 hn
      rw [h7] at ha
      simp at ha
    | some v => simp
  · intro hg
    cases hn : a? with
    | none =>
      rw [h6 hn] at hg
      simp at hg
    | some v => simp
  · subst hr3
    simp only [List.append_nil] at hsT2
    simp [hsP, hsQ2, hsT2, List.append_assoc]

/-! ### Completeness: a decomposition yields a candidate -/

theorem optGroup4_none_mem (s : List Char) : (none, s) ∈ optGroup4 s := by
  unfold optGroup4
  exact List.mem_append_right _ (List.mem_singleton.mpr rfl)

theorem optPart3_none_mem (s : List Char) : (none, none, s) ∈ optPart3 s := by
  unfold optPart3
  exact List.mem_append_right _ (List.mem_singleton.mpr rfl)

theorem optPart2_none_mem (s : List Char) : (none, none, none, s) ∈ optPart2 s := by
  unfold optPart2
  exact List.mem_append_right _ (List.mem_singleton.mpr rfl)

theorem optDigits_none_mem (s : List Char) : (none, s) ∈ optDigits s := by
  unfold optDigits
  exact List.mem_append_right _ (List.mem_singleton.mpr rfl)

theorem optDigits_some_mem {d : List Char} (rest : List Char)
    (h : digitSegOk (some d)) : (some d, rest) ∈ optDigits (d ++ rest) := by
  obtain ⟨hlo, hhi, hall⟩ := h
  unfold optDigits
  exact List.mem_append_left _
    (List.mem_map.mpr ⟨(d, rest), takeClass_complete hall hlo hhi, rfl⟩)

theorem altP_complete {a : List Char} (rest : List Char) (h : appSegOk (some a)) :
    (a, rest) ∈ altP (a ++ rest) := by
  rcases h with h | ⟨hlo, hhi, hall⟩
  · subst h
    show (['p'], rest) ∈ altP ('p' :: rest)
    rw [show altP ('p' :: rest) = [(['p'], rest)] ++ digitSeg ('p' :: rest) from rfl]
    exact List.mem_append_left _ (List.mem_singleton.mpr rfl)
  · unfold altP
    exact List.mem_append_right _ (takeClass_complete hall hlo hhi)

theorem optGroup4_complete (g? : Option (List Char)) (rest : List Char)
    (h : digitSegOk g?) : (g?, rest) ∈ optGroup4 (segStr g? ++ rest) := by
  cases g? with
  | none => exact optGroup4_none_mem rest
  | some d =>
    obtain ⟨hlo, hhi, hall⟩ := h
    show (some d, rest) ∈ optGroup4 ('/' :: (d ++ rest))
    rw [optGroup4_slash]
    exact List.mem_append_left _
      (List.mem_map.mpr ⟨(d, rest), takeClass_complete hall hlo hhi, rfl⟩)

theorem optPart3_complete (a? g? : Option (List Char)) (rest : List Char)
    (hA : appSegOk a?) (hG : digitSegOk g?) (hnest : g?.isSome → a?.isSome) :
    (a?, g?, rest) ∈ optPart3 (segStr a? ++ segStr g? ++ rest) := by
  cases a? with
  | none =>
    cases g? with
    | some d => simpa using hnest (by simp)
    | none => exact optPart3_none_mem rest
  | some a =>
    have h2 : segStr (some a) ++ segStr g? ++ rest =
        '/' :: (a ++ (segStr g? ++ rest)) := by
      simp [segStr, List.append_assoc]
    rw [h2, optPart3_slash]
    refine List.mem_append_left _ (List.mem_flatMap.mpr
      ⟨(a, segStr g? ++ rest), altP_complete _ hA, ?_⟩)
    exact List.mem_map.mpr ⟨(g?, rest), optGroup4_complete g? rest hG, rfl⟩

theorem optPart2_complete (n? a? g? : Option (List Char)) (rest : List Char)
    (hN : digitSegOk n?) (hA : appSegOk a?) (hG : digitSegOk g?)
    (hAN : a?.isSome → n?.isSome) (hGA : g?.isSome → a?.isSome) :
    (n?, a?, g?, rest) ∈ optPart2 (segStr n? ++ segStr a? ++ segStr g? ++ rest) := by
  cases n? with
  | none =>
    cases a? with
    | some a => simpa using hAN (by simp)
    | none =>
      cases g? with
      | some d => simpa using hGA (by simp)
      | none => exact optPart2_none_mem rest
  | some nd =>
    obtain ⟨hlo, hhi, hall⟩ := hN
    have h2 : segStr (some nd) ++ segStr a? ++ segStr g? ++ rest =
        '/' :: (nd ++ (segStr a? ++ segStr g? ++ rest)) := by
      simp [segStr, List.append_assoc]
    rw [h2, optPart2_slash]
    refine List.mem_append_left _ (List.mem_flatMap.mpr
      ⟨(nd, segStr a? ++ segStr g? ++ rest), takeClass_complete hall hlo hhi, ?_⟩)
    exact List.mem_map.mpr
      ⟨(a?, g?, rest), optPart3_complete a? g? rest hA hG hGA, rfl⟩

theorem tailCands_complete (sl : Bool) (c? : Option (List Char))
    (h : digitSegOk c?) :
    (c?, []) ∈ tailCands ((if sl then ['/'] else []) ++ c?.getD []) := by
  cases sl with
  | false =>
    cases c? with
    | none =>
      show ((none : Option (List Char)), []) ∈ tailCands []
      exact optDigits_none_mem []
    | some d =>
      show (some d, ([] : List Char)) ∈ tailCands d
      unfold tailCands
      refine List.mem_append_right _ ?_
      have := optDigits_some_mem ([] : List Char) h
      simpa using this
  | true =>
    cases c? with
    | none =>
      show ((none : Option (List Char)), []) ∈ tailCands ['/']
      rw [show (['/'] : List Char) = '/' :: [] from rfl, tailCands_slash]
      exact List.mem_append_left _ (optDigits_none_mem [])
    | some d =>
      show (some d, ([] : List Char)) ∈ tailCands ('/' :: d)
      rw [tailCands_slash]
      refine List.mem_append_left _ ?_
      have := optDigits_some_mem ([] : List Char) h
      simpa using this

/-- A grammar decomposition produces at least one complete match. -/
theorem matchCandidates_complete {l : List Char} (h : NetIdGrammar l) :
    matchCandidates l ≠ [] := by
  obtain ⟨pr, n?, a?, g?, sl, c?, hlo, hhi, hall, hN, hA, hG, hC, hAN, hGA, hs⟩ := h
  subst hs
  apply List.ne_nil_of_mem
    (a := ⟨String.mk pr, n?.map String.mk, a?.map String.mk, g?.map String.mk,
      c?.map String.mk⟩)
  simp only [List.cons_append, List.append_assoc]
  rw [matchCandidates_slash2]
  refine List.mem_flatMap.mpr ⟨(pr, segStr n? ++ (segStr a? ++ (segStr g? ++
    ((if sl then ['/'] else []) ++ c?.getD [])))), ?_, ?_⟩
  · exact takeClass_complete hall hlo hhi
  · refine List.mem_flatMap.mpr ⟨(n?, a?, g?,
      (if sl then ['/'] else []) ++ c?.getD []), ?_, ?_⟩
    · have := optPart2_complete n? a? g?
        ((if sl then ['/'] else []) ++ c?.getD []) hN hA hG hAN hGA
      simpa [List.append_assoc] using this
    · refine List.mem_flatMap.mpr ⟨(c?, []), tailCands_complete sl c? hC, ?_⟩
      simp

/-! ### `parse` returns `malformedNetId` exactly on a regex failure -/

theorem buildBranch_error_cat {proj : String} {net channel : Option Nat}
    {p3 p4 : JSVal} {e : CErr}
    (h : buildBranch proj net channel p3 p4 = .error e) : catOf e ≠ .malformed := by
  unfold buildBranch at h
  split at h
  · cases hu : validatedNumber p4 "unitAddress" with
    | error e2 =>
      simp only [hu, Except.error.injEq] at h
      subst h
      rw [(validatedNumber_error_facts hu).1]
      decide
    | ok r =>
      cases r with
      | none =>
        simp only [hu, Except.error.injEq] at h
        subst h
        decide
      | some u =>
        simp only [hu] at h
        exact Except.noConfusion h
  · cases ha : validatedNumber p3 "application" with
    | error e2 =>
      simp only [ha, Except.error.injEq] at h
      subst h
      rw [(validatedNumber_error_facts ha).1]
      decide
    | ok app =>
      cases hg : validatedNumber p4 "group" with
      | error e2 =>
        simp only [ha, hg, Except.error.injEq] at h
        subst h
        rw [(validatedNumber_error_facts hg).1]
        decide
      | ok grp =>
        simp only [ha, hg] at h
        split at h
        · simp only [Except.error.injEq] at h
          subst h
          decide
        · exact Except.noConfusion h

theorem finalCheck_error_cat {x : CBusNetId} {e : CErr}
    (h : finalCheck x = .error e) : catOf e ≠ .malformed := by
  unfold finalCheck at h
  repeat' split at h
  all_goals
    first
      | exact Except.noConfusion h
      | (simp only [Except.error.injEq] at h; subst h; decide)

/-- The constructor can fail in many ways, but never with the parse-only
error `malformedNetId`. -/
theorem construct_not_malformed (p? : Option String) (np p3 p4 p5 : JSVal) :
    construct p? np p3 p4 p5 ≠ .error .malformedNetId := by
  intro h
  unfold construct at h
  cases p? with
  | none => simp at h
  | some pname =>
    cases hp : validatedProjectName pname with
    | error e =>
      simp only [hp, Except.error.injEq] at h
      subst h
      exact absurd (validatedProjectName_error_cat hp) (by decide)
    | ok proj =>
      simp only [hp] at h
      cases hc : (if truthy p5 then validatedChannelNumber p5 else .ok none) with
      | error e =>
        simp only [hc, Except.error.injEq] at h
        subst h
        by_cases ht : truthy p5
        · rw [if_pos ht] at hc
          exact absurd (validatedChannelNumber_error_facts hc).1 (by decide)
        · rw [if_neg ht] at hc
          exact Except.noConfusion hc
      | ok channel =>
        simp only [hc] at h
        cases hn : validatedNumber np "network" with
        | error e =>
          simp only [hn, Except.error.injEq] at h
          subst h
          exact absurd (validatedNumber_error_facts hn).1 (by decide)
        | ok net =>
          simp only [hn] at h
          cases hb : buildBranch proj net channel p3 p4 with
          | error e =>
            simp only [hb, Except.error.injEq] at h
            subst h
            exact buildBranch_error_cat hb rfl
          | ok x =>
            simp only [hb] at h
            exact finalCheck_error_cat h rfl

theorem parse_malformed_iff (s : String) :
    CBusNetId.parse s = .error .malformedNetId ↔ netidMatch s = none := by
  unfold CBusNetId.parse
  cases hm : netidMatch s with
  | none => simp
  | some c =>
    constructor
    · intro h
      exact absurd h (construct_not_malformed _ _ _ _ _)
    · intro h
      exact Option.noConfusion h

theorem netidMatch_none_iff (s : String) :
    netidMatch s = none ↔ ¬ NetIdGrammar s.data := by
  unfold netidMatch
  rw [List.head?_eq_none_iff]
  constructor
  · intro hempty hg
    exact matchCandidates_complete hg hempty
  · intro hng
    by_contra hne
    obtain ⟨caps, hmem⟩ := List.exists_mem_of_ne_nil _ hne
    exact hng (matchCandidates_sound hmem)

/-! ### The claimed grammar is decidably violated by a trailing slash -/

theorem claimCandidates_slash2 (r : List Char) :
    claimCandidates ('/' :: '/' :: r) =
      (projSeg r).flatMap fun pr =>
        (optPart2 pr.2).flatMap fun q =>
          (claimTail q.2.2.2).flatMap fun t =>
            if t.2 = [] then
              [⟨String.mk pr.1, (q.1).map String.mk, (q.2.1).map String.mk,
                (q.2.2.1).map String.mk, (t.1).map String.mk⟩]
            else [] := rfl

theorem claimTail_complete (c? : Option (List Char)) (h : digitSegOk c?) :
    (c?, []) ∈ claimTail (segStr c?) := by
  have h2 : claimTail (segStr c?) = optGroup4 (segStr c?) := rfl
  rw [h2]
  have := optGroup4_complete c? [] h
  simpa using this

/-- A decomposition along the spec's claimed grammar produces a candidate. -/
theorem claimCandidates_complete {l : List Char} (h : ClaimGrammar l) :
    claimCandidates l ≠ [] := by
  obtain ⟨pr, n?, a?, g?, c?, hlo, hhi, hall, hN, hA, hG, hC, hAN, hGA, hs⟩ := h
  subst hs
  apply List.ne_nil_of_mem
    (a := ⟨String.mk pr, n?.map String.mk, a?.map String.mk, g?.map String.mk,
      c?.map String.mk⟩)
  simp only [List.cons_append, List.append_assoc]
  rw [claimCandidates_slash2]
  refine List.mem_flatMap.mpr
    ⟨(pr, segStr n? ++ (segStr a? ++ (segStr g? ++ segStr c?))), ?_, ?_⟩
  · exact takeClass_complete hall hlo hhi
  · refine List.mem_flatMap.mpr ⟨(n?, a?, g?, segStr c?), ?_, ?_⟩
    · have := optPart2_complete n? a? g? (segStr c?) hN hA hG hAN hGA
      simpa [List.append_assoc] using this
    · refine List.mem_flatMap.mpr ⟨(c?, []), claimTail_complete c? hC, ?_⟩
      simp

/-- C4 counterexample.  The spec's claimed grammar attaches the trailing
channel to its own slash, as one optional unit `("/" channel)?`; the
compiled pattern instead makes the trailing slash and the channel digits
independently optional (`\\/?(\\d{1,3})?`).  Hence `"//SHAC/"`, which ends
in a bare slash with no channel digits and is outside the claimed
grammar, is nevertheless parsed successfully (as a project id), not
rejected as malformed. -/
theorem C4_cex_trailing_slash :
    CBusNetId.parse "//SHAC/" =
      .ok ⟨"SHAC", none, none, none, none, none⟩ ∧
    ¬ ClaimGrammar ("//SHAC/".data) := by
  refine ⟨by decide, fun hg => claimCandidates_complete hg (by decide)⟩

/-- C4 (amended).  `parse` fails with `malformedNetId` exactly when the
input is outside the language of the pattern actually compiled in
`CBusNetId.parse`, in which the trailing slash and the trailing channel
digits are independently optional; any input inside that language is
never rejected as malformed (construction may still fail with a
construction error), and any input outside it is always rejected as
malformed. -/
theorem C4_parse_malformed_iff_not_grammar (s : String) :
    CBusNetId.parse s = .error .malformedNetId ↔ ¬ NetIdGrammar s.data := by
  rw [parse_malformed_iff, netidMatch_none_iff]

end CBus
